import Mathlib

/-!
Verification of the Ema lexer/parser core against its specification.

The definitions below are a shallow embedding of the TypeScript sources:

* `Q.Scanner` (tokenizer, token list, edit splicing) from part_004,
* `Q.Source.File` position model from src/src/source.ts and part_000,
* `Q.Parser` combinator engine from part_009,
* `Q.Parser.Grammar` from src/src/parserGrammar.ts,
* `Q.Errors` from part_011,
* `getParseErrors` / `hasError` / `getAllDiagnostics` from src/src/source.ts
  and src/src/ast.ts.

Strings are modelled as `List Char`, byte offsets as `Nat`, JavaScript
numbers used as array indices as `Int` where they can go negative.
JavaScript `undefined` results of out-of-bounds array reads are modelled
with `Option`; the comparison `undefined > x` (always false) is modelled
by `gtOpt`.  `while` loops are modelled with an explicit fuel parameter
(`none` results mean the fuel ran out, i.e. the JS loop would still be
running); theorems below prove the fuel bounds chosen suffice.
-/

namespace Ema

/-- Token kinds, embedding `Scanner.TokenKind` (part_004). -/
inductive TokKind where
  | numericLiteral
  | stringLiteral
  | punctuation
  | operator
  | assignmentOperator
  | relationalOperator
  | identifier
  | newLine
deriving DecidableEq, Repr

/-- A token, embedding `Scanner.Token` (part_004).  The kind-specific
payload (`value` / `punctuation` / `operator` / `name`) is flattened into
the single field `text`; `keyword` embeds the optional `keyword` flag of
identifier tokens (absent = `false`). -/
structure Tok where
  kind : TokKind
  pos : Nat
  len : Nat
  text : String
  keyword : Bool := false
deriving DecidableEq, Repr

instance : Inhabited Tok := ⟨{ kind := .newLine, pos := 0, len := 0, text := "" }⟩

/-- Parse errors, embedding the `Q.Errors` classes (part_011).  Each
carries the position it is bound to; `unexpectedToken` also carries the
offending token's length (the constructor sets `this.length = token.length`),
and `expectedToken` carries the expected-step name used in its message. -/
inductive PErr where
  | unexpectedCharacter (pos : Nat)
  | unterminatedStringLiteral (pos : Nat)
  | missedListSeparator (pos : Nat)
  | trailingListSeparator (pos : Nat)
  | extraListSeparator (pos : Nat)
  | unexpectedToken (pos : Nat) (len : Nat)
  | expectedToken (pos : Nat) (expected : String)
  | /-- Modelled from the spec: the parser engine (part_009) constructs
  `Errors.UnexpectedEOF`, whose class definition is not among the source
  files; §3/§7 of the spec list `UnexpectedEndOfFile` as a ParseError
  variant carrying a Position, which is what this constructor embeds. -/
    unexpectedEOF (pos : Nat)
deriving DecidableEq, Repr

/-! ## Tokenizer (`Q.Scanner.TokenStream`, part_004) -/

/-- ASCII whitespace matched by the JavaScript `\s` character class.
(The Unicode space characters `\s` also matches do not occur in any text
considered here.) -/
def jsWhitespace (c : Char) : Bool :=
  c = ' ' || c = '\t' || c = '\n' || c = '\r' || c = '\x0b' || c = '\x0c'

/-- The loop of `skipWhiteSpace` (part_004): advance the cursor over
whitespace other than `\n` and `\r`.  Each iteration advances the cursor,
so the `text.length + 1` fuel supplied by the wrapper is never exhausted. -/
def skipWhiteSpaceF (text : List Char) : Nat → Nat → Nat
  | 0, cursor => cursor
  | fuel + 1, cursor =>
    match text[cursor]? with
    | some c =>
      if jsWhitespace c && !(c = '\n' || c = '\r') then skipWhiteSpaceF text fuel (cursor + 1)
      else cursor
    | none => cursor

/-- `skipWhiteSpace` (part_004). -/
def skipWhiteSpace (text : List Char) (cursor : Nat) : Nat :=
  skipWhiteSpaceF text (text.length + 1) cursor

/-- `/\d/` -/
def isDigitCh (c : Char) : Bool := '0' ≤ c && c ≤ '9'

/-- `/[a-zA-Z\$_]/` -/
def isIdentStart (c : Char) : Bool :=
  ('a' ≤ c && c ≤ 'z') || ('A' ≤ c && c ≤ 'Z') || c = '$' || c = '_'

/-- `/[a-zA-Z0-9_\-]/` (note: `$` is allowed only in the first character). -/
def isIdentRest (c : Char) : Bool :=
  ('a' ≤ c && c ≤ 'z') || ('A' ≤ c && c ≤ 'Z') || isDigitCh c || c = '_' || c = '-'

/-- End cursor of the run of characters satisfying `p` starting at `cursor`
(the cursor advance performed by the `regExp` helper for the classes above). -/
def scanWhileF (p : Char → Bool) (text : List Char) : Nat → Nat → Nat
  | 0, cursor => cursor
  | fuel + 1, cursor =>
    match text[cursor]? with
    | some c => if p c then scanWhileF p text fuel (cursor + 1) else cursor
    | none => cursor

/-- `scanWhile` with the fuel its wrapper always supplies. -/
def scanWhile (p : Char → Bool) (text : List Char) (cursor : Nat) : Nat :=
  scanWhileF p text (text.length + 1) cursor

/-- The slice `text[from, to)` as a `String`. -/
def sliceStr (text : List Char) (start stop : Nat) : String :=
  String.mk ((text.drop start).take (stop - start))

/-- `readEscaped`'s while loop (part_004): from `cursor`, consume characters
processing backslash escapes until the unescaped character `escape` is found
(returning the collected content, the cursor after the delimiter, and `true`)
or the end of the text is reached (returning the collected content, the end
cursor, and `false`). -/
def readEscapedGo (text : List Char) (escape : Char) :
    Nat → Nat → Bool → List Char → List Char × Nat × Bool
  | 0, cursor, _, str => (str, cursor, false)
  | fuel + 1, cursor, escaped, str =>
    match text[cursor]? with
    | some ch =>
      if escaped then readEscapedGo text escape fuel (cursor + 1) false (str ++ [ch])
      else if ch = '\\' then readEscapedGo text escape fuel (cursor + 1) true str
      else if ch = escape then (str, cursor + 1, true)
      else readEscapedGo text escape fuel (cursor + 1) false (str ++ [ch])
    | none => (str, cursor, false)

/-- `readEscaped` (part_004): starts by advancing past the opening delimiter
(`++this.cursor`), runs the loop above, and on reaching end-of-text reports
`UnterminatedStringLiteral` at the final cursor (`this.cursor`, which at that
point is the end of the text) via `source.addParseError`. -/
def readEscaped (text : List Char) (escape : Char) (cursor : Nat) :
    List Char × Nat × List PErr :=
  let r := readEscapedGo text escape (text.length + 1) (cursor + 1) false []
  if r.2.2 then (r.1, r.2.1, [])
  else (r.1, r.2.1, [.unterminatedStringLiteral r.2.1])

/-- Characters recognized as single-character operators in `readNext`. -/
def singleOperators : List Char := ['+', '-', '*', '/', '%', '|', '&', '^', '!']

/-- The punctuation characters (`Q.Scanner.Punctuation`). -/
def punctuationChars : List Char := [';', '.', ':', ',', '(', ')', '{', '}', '[', ']']

/-- `readNext` (part_004): skip whitespace and produce the next token,
the cursor after it, and any lexical errors reported to the source file on
the way.  The recursive `return this.readNext()` calls (lone `\r`, and the
unexpected-character recovery) consume fuel; one unit per skipped character
suffices, and the wrapper below supplies `text.length + 1`. -/
def readNextF (text : List Char) : Nat → Nat → Option Tok × Nat × List PErr
  | 0, cursor => (none, cursor, [])
  | fuel + 1, cursor0 =>
    let cursor := skipWhiteSpace text cursor0
    match text[cursor]? with
    | none => (none, cursor, [])
    | some ch0 =>
      if ch0 = '\n' then
        (some { kind := .newLine, pos := cursor, len := 1, text := "\n" }, cursor + 1, [])
      else if ch0 = '\r' then
        if text[cursor + 1]? = some '\n' then
          (some { kind := .newLine, pos := cursor, len := 2, text := "\r\n" }, cursor + 2, [])
        else readNextF text fuel (cursor + 1)
      else if isDigitCh ch0 then
        let dEnd := scanWhile isDigitCh text cursor
        let fEnd := if text[dEnd]? = some '.' then scanWhile isDigitCh text (dEnd + 1) else dEnd + 1
        let stop := if text[dEnd]? = some '.' && dEnd + 1 < fEnd then fEnd else dEnd
        (some { kind := .numericLiteral, pos := cursor, len := stop - cursor,
                text := sliceStr text cursor stop }, stop, [])
      else if ch0 = '.' && (text[cursor + 1]?).any isDigitCh then
        let stop := scanWhile isDigitCh text (cursor + 1)
        (some { kind := .numericLiteral, pos := cursor, len := stop - cursor,
                text := sliceStr text cursor stop }, stop, [])
      else if isIdentStart ch0 then
        let stop := scanWhile isIdentRest text (cursor + 1)
        let name := sliceStr text cursor stop
        (some { kind := .identifier, pos := cursor, len := stop - cursor,
                text := name, keyword := name = "func" }, stop, [])
      else if ch0 = '"' || ch0 = '\'' then
        let r := readEscaped text ch0 cursor
        (some { kind := .stringLiteral, pos := cursor, len := r.1.length,
                text := String.mk r.1 }, r.2.1, r.2.2)
      else
        let w2 := String.mk [ch0, (text[cursor + 1]?).getD ' ']
        if text[cursor + 1]? = some '=' && (ch0 = '=' || ch0 = '!') then
          (some { kind := .relationalOperator, pos := cursor, len := 2, text := w2 }, cursor + 2, [])
        else if text[cursor + 1]? = some '=' &&
            (ch0 = '-' || ch0 = '+' || ch0 = '*' || ch0 = '/' || ch0 = '%') then
          (some { kind := .assignmentOperator, pos := cursor, len := 2, text := w2 }, cursor + 2, [])
        else if text[cursor + 1]? = some ch0 &&
            (ch0 = '|' || ch0 = '&' || ch0 = '*' || ch0 = '+' || ch0 = '-') then
          (some { kind := .operator, pos := cursor, len := 2, text := w2 }, cursor + 2, [])
        else if singleOperators.contains ch0 then
          (some { kind := .operator, pos := cursor, len := 1, text := String.mk [ch0] }, cursor + 1, [])
        else if ch0 = '<' || ch0 = '>' then
          (some { kind := .relationalOperator, pos := cursor, len := 1, text := String.mk [ch0] }, cursor + 1, [])
        else if ch0 = '=' then
          (some { kind := .assignmentOperator, pos := cursor, len := 1, text := "=" }, cursor + 1, [])
        else if punctuationChars.contains ch0 then
          (some { kind := .punctuation, pos := cursor, len := 1, text := String.mk [ch0] }, cursor + 1, [])
        else
          let r := readNextF text fuel (cursor + 1)
          (r.1, r.2.1, .unexpectedCharacter cursor :: r.2.2)

/-- `readNext` with enough fuel for its internal recursion. -/
def readNext (text : List Char) (cursor : Nat) : Option Tok × Nat × List PErr :=
  readNextF text (text.length + 1) cursor

/-- `list()` (part_004): drain the stream to the end, returning the tokens,
the final cursor, and the lexical errors reported along the way.  Every
produced token advances the cursor by at least one character, so fuel
`text.length + 1` suffices. -/
def listF (text : List Char) : Nat → Nat → List Tok × Nat × List PErr
  | 0, cursor => ([], cursor, [])
  | fuel + 1, cursor =>
    match readNext text cursor with
    | (none, c2, errs) => ([], c2, errs)
    | (some t, c2, errs) =>
      let r := listF text fuel c2
      (t :: r.1, r.2.1, errs ++ r.2.2)

/-- `toStaticLinkedList` (part_004): the backing array of the materialized
token list for a text, plus the lexical errors. -/
def tokenize (text : List Char) : List Tok × Nat × List PErr :=
  listF text (text.length + 1) 0

/-! ## Token stream object state (`peek` / `next` memoization, `jump`,
`reloadContent`) and edit splicing (part_004) -/

/-- The mutable state of a `TokenStream` object: the loaded text, the
cursor, the `this.current` memo (JS `null` = `none`), and the lexical
errors reported to the source file so far. -/
structure Stream where
  text : List Char
  cursor : Nat
  memo : Option Tok
  errors : List PErr
deriving DecidableEq, Repr

/-- `peek()`: `return this.current || (this.current = this.readNext())`.
A `null` memo is refetched (JS `||` does not cache `null`). -/
def Stream.peekT (st : Stream) : Option Tok × Stream :=
  match st.memo with
  | some t => (some t, st)
  | none =>
    let r := readNext st.text st.cursor
    (r.1, { st with cursor := r.2.1, memo := r.1, errors := st.errors ++ r.2.2 })

/-- `next()`: `const token = this.current; this.current = null;
return token || this.readNext();` -/
def Stream.nextT (st : Stream) : Option Tok × Stream :=
  match st.memo with
  | some t => (some t, { st with memo := none })
  | none =>
    let r := readNext st.text st.cursor
    (r.1, { st with cursor := r.2.1, errors := st.errors ++ r.2.2 })

/-- The stream state after `toStaticLinkedList` drained it with `list()`:
cursor at the end, no memo. -/
def drainedStream (text : List Char) : List Tok × Stream :=
  let r := tokenize text
  (r.1, { text := text, cursor := r.2.1, memo := none, errors := r.2.2 })

/-- `source.edit(start, end, text)` content update (src/src/source.ts):
`before + text + after`. -/
def editText (text : List Char) (start stop : Nat) (repl : List Char) : List Char :=
  text.take start ++ repl ++ text.drop stop

/-- `(step / 2) | 0 || 1`: the step update shared by both decaying binary
searches. -/
def newStep (step : Nat) : Nat := if step / 2 = 0 then 1 else step / 2

/-- The while loop of `findTokenIndexAtPosition` (part_004).  `index` is a
JavaScript number that the loop moves by `±step`; the loop condition
`index < backend.length && index >= start` guards the body's array access,
so inside the body the access is in bounds (`getD` with the `Inhabited`
default is never hit there).  `none` = out of fuel. -/
def ftiLoop (backend : List Tok) (position : Int) (startp : Nat) :
    Nat → Int → Nat → Option Int
  | 0, _, _ => none
  | fuel + 1, index, step =>
    if index < (backend.length : Int) ∧ (startp : Int) ≤ index then
      let token := backend.getD index.toNat default
      let s : Int := token.pos
      if s > position then ftiLoop backend position startp fuel (index - step) (newStep step)
      else if position < s + token.len then some index
      else ftiLoop backend position startp fuel (index + step) (newStep step)
    else some (-1)

/-- `findTokenIndexAtPosition(list, position, start = 0)` (part_004):
exponential-decaying search for the index of the token whose span contains
`position`; `some (-1)` when the loop exits without finding one, `none`
when the modelled loop would not have terminated within the fuel (the
termination theorems below show the chosen fuel is never exhausted in the
claimed cases).  `start` is only ever passed a non-negative index. -/
def findTokenIndexAtPosition (backend : List Tok) (position : Int) (startp : Nat := 0) :
    Option Int :=
  let len := backend.length - startp
  ftiLoop backend position startp (4 * backend.length + 16)
    ((startp : Int) + len / 2) (len / 4)

/-- The re-lex loop of `applyEdit` (part_004): `while (!stream.eof())`
pull tokens until one starts at or past `newEndPos`. -/
def relexLoop (newEndPos : Nat) : Nat → Stream → List Tok × Stream × Bool
  | 0, st => ([], st, true)
  | fuel + 1, st =>
    let p := st.peekT
    match p.1 with
    | none => ([], p.2, false)
    | some _ =>
      let n := p.2.nextT
      match n.1 with
      | none => ([], n.2, false)
      | some t =>
        if t.pos ≥ newEndPos then ([], n.2, false)
        else
          let r := relexLoop newEndPos fuel n.2
          (t :: r.1, r.2)

/-- Result record of `applyEdit`. -/
structure EditInfo where
  editHead : Int
  numInserted : Nat
  delCount : Int
  backend2 : List Tok
  stream2 : Stream
  diverged : Bool
deriving DecidableEq, Repr

/-- `applyEdit(list, startPos, endPos, newEndPos)` (part_004): reload the
stream with the edited text, jump to `startPos`, re-lex up to the first
token starting at or beyond `newEndPos`, locate the indices of the tokens
containing `startPos` and `endPos - 1`, and splice the backing array.
`editHead` is the index the entity walk `while (editHead.index !== sIndex)`
arrives at (the walk starts at index 0 and only moves forward, so it
terminates exactly when `sIndex ≥ 0`, which the `diverged` flag tracks
together with fuel exhaustion of the inner loops). -/
def applyEdit (backend : List Tok) (stream : Stream) (newText : List Char)
    (startPos endPos newEndPos : Nat) : EditInfo :=
  let st1 : Stream := { stream with text := newText, cursor := startPos }
  let r := relexLoop newEndPos (newText.length + 2) st1
  let newTokens := r.1
  match findTokenIndexAtPosition backend startPos with
  | none =>
    { editHead := 0, numInserted := 0, delCount := 0, backend2 := backend,
      stream2 := r.2.1, diverged := true }
  | some sIndex =>
    match findTokenIndexAtPosition backend ((endPos : Int) - 1) sIndex.toNat with
    | none =>
      { editHead := 0, numInserted := 0, delCount := 0, backend2 := backend,
        stream2 := r.2.1, diverged := true }
    | some eIndex =>
      let delCount : Int := eIndex - sIndex + 1
      let backend2 :=
        backend.take sIndex.toNat ++ newTokens ++ backend.drop (sIndex.toNat + delCount.toNat)
      { editHead := sIndex, numInserted := newTokens.length, delCount := delCount,
        backend2 := backend2, stream2 := r.2.1,
        diverged := r.2.2 || decide (sIndex < 0) }

/-- `entity.isKeyword(name)` (part_004) for the entity at `index` of a
backing array. -/
def isKeywordEnt (backend : List Tok) (index : Nat) (name : String) : Bool :=
  match backend[index]? with
  | some t => t.kind == .identifier && t.keyword && t.text == name
  | none => false

/-- `entity.isPunctuation(p)` (part_004). -/
def isPunctuationEnt (backend : List Tok) (index : Nat) (p : String) : Bool :=
  match backend[index]? with
  | some t => t.kind == .punctuation && t.text == p
  | none => false

/-- `entity.asIdentifer()` (part_004) reduced to the name it would carry:
`some name` iff the token is a non-keyword identifier. -/
def asIdentiferEnt (backend : List Tok) (index : Nat) : Option String :=
  match backend[index]? with
  | some t => if t.kind == .identifier && !t.keyword then some t.text else none
  | none => none

/-! ## Position model -/

/-- `getLinesSync` (src/src/source.ts / part_005):
`content.match(/.*(\r?\n)?/g)` followed by popping the final empty match.
`.` does not match `\n` or `\r`; a zero-length match bumps the scan by one
character, which is how a lone `\r` disappears from the line list. -/
def lineSeg (s : List Char) : List Char := s.takeWhile fun ch => ch ≠ '\n' && ch ≠ '\r'

/-- The remainder after the `.*` part of one line match. -/
def lineRest (s : List Char) : List Char := s.dropWhile fun ch => ch ≠ '\n' && ch ≠ '\r'

/-- The match loop proper (see `linesOf` below for the description).  Each
emitted line consumes at least one character, so the `s.length + 1` fuel
supplied by `linesOf` is never exhausted. -/
def linesAuxF : Nat → List Char → List (List Char)
  | 0, _ => []
  | fuel + 1, s =>
    match s with
    | [] => [[]]
    | _ :: _ =>
      match lineRest s with
      | '\r' :: '\n' :: t => (lineSeg s ++ ['\r', '\n']) :: linesAuxF fuel t
      | '\n' :: t => (lineSeg s ++ ['\n']) :: linesAuxF fuel t
      | '\r' :: t =>
        if (lineSeg s).isEmpty then [] :: linesAuxF fuel t
        else lineSeg s :: [] :: linesAuxF fuel t
      | _ => [lineSeg s, []]

/-- The line list of a text (match result minus the popped final `""`). -/
def linesOf (s : List Char) : List (List Char) := (linesAuxF (s.length + 1) s).dropLast

/-- The `lineLengthMapCache` construction (src/src/source.ts): for each
line push the cumulative length so far. -/
def buildMap : List (List Char) → Nat → List Nat
  | [], _ => []
  | l :: ls, cur => cur :: buildMap ls (cur + l.length)

/-- The line table of a text. -/
def mapOf (s : List Char) : List Nat := buildMap (linesOf s) 0

/-- `map[i]` for a JavaScript index `i` that may be out of range
(`undefined` = `none`). -/
def mapGet (map : List Nat) (i : Int) : Option Int :=
  if h : 0 ≤ i then (map[i.toNat]?).map Int.ofNat else none

/-- `undefined > p` is false; `v > p` is the numeric comparison. -/
def gtOpt (o : Option Int) (p : Int) : Bool :=
  match o with
  | some v => p < v
  | none => false

/-- The while loop of `lookupLineNumberAndColumn` (src/src/source.ts,
lines 162-174).  The returned column is `position - map[...] + 1`, which is
`NaN` (modelled `none`) if that map access were out of range. -/
def lookupLoop (map : List Nat) (position : Int) :
    Nat → Int → Nat → Option (Int × Option Int)
  | 0, _, _ => none
  | fuel + 1, index, step =>
    if index < (map.length : Int) then
      if gtOpt (mapGet map index) position then
        lookupLoop map position fuel (index - step) (newStep step)
      else if gtOpt (mapGet map (index + 1)) position then
        some (index + 1, (mapGet map index).map fun v => position - v + 1)
      else lookupLoop map position fuel (index + step) (newStep step)
    else some (index, (mapGet map ((map.length : Int) - 1)).map fun v => position - v + 1)

/-- `lookupLineNumberAndColumn` (src/src/source.ts, lines 146-175): build
the line table and run the decaying binary search.  `none` = the loop ran
out of fuel (the termination theorem below shows this cannot happen for
`position ≥ 0` on a non-empty text). -/
def lookupLineNumberAndColumn (text : List Char) (position : Int) :
    Option (Int × Option Int) :=
  let map := mapOf text
  lookupLoop map position (4 * map.length + 16) (map.length / 2) (map.length / 4)

/-- `lines` of the legacy `Source.File` (part_000): `split(/\r?\n/g)` —
the separator is a `\n` optionally preceded by an immediately adjacent
`\r`; a lone `\r` is not a separator. -/
def splitLines : List Char → List (List Char)
  | [] => [[]]
  | '\n' :: t => [] :: splitLines t
  | '\r' :: '\n' :: t => [] :: splitLines t
  | c :: t =>
    match splitLines t with
    | [] => [[c]]
    | l :: ls => (c :: l) :: ls

/-- Results of the legacy `lookupLineNumberAndColumn` (part_000):
a value, the explicit out-of-range `throw`, or the crash from reading
`.length` of `lines[i]` past the end of the array. -/
inductive LookupOldResult where
  | ok (line col : Int)
  | outOfRange
  | typeError
deriving DecidableEq, Repr

/-- The while loop of the legacy lookup:
`while (position > (len = lines[currentLineIndex++].length)) position -= len`.
Note the post-increment: at exit `currentLineIndex` is one past the line
whose test failed, and the function returns `[currentLineIndex + 1,
position + 1]`. -/
def lookupOldLoop (lines : List (List Char)) : Nat → Int → Nat → LookupOldResult
  | 0, _, _ => .typeError
  | fuel + 1, position, idx =>
    match lines[idx]? with
    | none => .typeError
    | some line =>
      if position > (line.length : Int) then
        lookupOldLoop lines fuel (position - line.length) (idx + 1)
      else .ok (idx + 2) (position + 1)

/-- The legacy `lookupLineNumberAndColumn` (part_000, lines 67-82).  The
loop's index grows every iteration and the loop stops (with a `TypeError`)
as soon as it runs off the array, so the fuel is never exhausted. -/
def lookupOld (text : List Char) (position : Int) : LookupOldResult :=
  if position = 0 then .ok 1 1
  else if position < 0 then .ok 0 0
  else if position > (text.length : Int) then .outOfRange
  else lookupOldLoop (splitLines text) ((splitLines text).length + 1) position 0

/-- Cumulative length of the first `k` lines (the quantity the round-trip
claim compares offsets against). -/
def cumulLen (lines : List (List Char)) (k : Nat) : Nat :=
  ((lines.take k).map List.length).sum

/-! ## AST (src/src/ast.ts) -/

/-- A node `Location` (src/src/source.ts): start and end offsets. -/
structure Loc where
  start : Nat
  stop : Nat
deriving DecidableEq, Repr

/-- AST nodes (src/src/ast.ts) as built by the grammar in
src/src/parserGrammar.ts.  `diags` embeds the mutable `diagnostics` array.
Fields of a node come from the write-once pattern context, whose fields are
`null` until a step assigns them, so `name` / `parameters` / `type` are
`Option`s (a pattern can succeed with unmatched steps, leaving them null).
The `parent` back-reference is not modelled: no claim depends on it, and it
only creates reference cycles.  `body` is always `[]` in this grammar. -/
inductive ANode where
  | identifier (loc : Loc) (name : String) (diags : List PErr)
  | functionDeclaration (loc : Loc) (name : Option ANode)
      (parameters : Option (List ANode)) (body : List ANode) (diags : List PErr)
  | parameterNode (loc : Loc) (name : Option ANode) (type : Option ANode) (diags : List PErr)
  | memberAccessNode (loc : Loc) (base : ANode) (member : ANode) (diags : List PErr)
deriving Repr

/-- `node.diagnostics`. -/
def ANode.diagnostics : ANode → List PErr
  | .identifier _ _ d => d
  | .functionDeclaration _ _ _ _ d => d
  | .parameterNode _ _ _ d => d
  | .memberAccessNode _ _ _ d => d

/-- `node.diagnostics.push(...errors)` (the mutation done by
`popErrorFrame`). -/
def ANode.addDiags : ANode → List PErr → ANode
  | .identifier l n d, e => .identifier l n (d ++ e)
  | .functionDeclaration l n p b d, e => .functionDeclaration l n p b (d ++ e)
  | .parameterNode l n t d, e => .parameterNode l n t (d ++ e)
  | .memberAccessNode l b m d, e => .memberAccessNode l b m (d ++ e)

/-- `getChildren()` (src/src/ast.ts).  A `null` name (possible on a node
whose step failed) would make the JS spread crash in `getAllDiagnostics`;
the embedding simply skips absent fields, which agrees with JS on every
node the grammar can hand to `getAllDiagnostics` without crashing. -/
def ANode.getChildren : ANode → List ANode
  | .identifier _ _ _ => []
  | .functionDeclaration _ n p b _ => n.toList ++ p.getD [] ++ b
  | .parameterNode _ n t _ => n.toList ++ t.toList
  | .memberAccessNode _ b m _ => [b, m]

mutual

/-- `getAllDiagnostics()` (src/src/ast.ts, lines 13-19): the node's own
diagnostics followed by each child's `getAllDiagnostics`, in `getChildren`
order (a depth-first walk). -/
def getAllDiagnostics : ANode → List PErr
  | .identifier _ _ d => d
  | .functionDeclaration _ n (some p) b d =>
    d ++ getAllDiagnosticsOpt n ++ getAllDiagnosticsList p ++ getAllDiagnosticsList b
  | .functionDeclaration _ n none b d =>
    d ++ getAllDiagnosticsOpt n ++ getAllDiagnosticsList b
  | .parameterNode _ n t d => d ++ getAllDiagnosticsOpt n ++ getAllDiagnosticsOpt t
  | .memberAccessNode _ b m d => d ++ getAllDiagnostics b ++ getAllDiagnostics m

/-- `getAllDiagnostics` of an optional child. -/
def getAllDiagnosticsOpt : Option ANode → List PErr
  | none => []
  | some n => getAllDiagnostics n

/-- `getAllDiagnostics` concatenated over a child list. -/
def getAllDiagnosticsList : List ANode → List PErr
  | [] => []
  | n :: t => getAllDiagnostics n ++ getAllDiagnosticsList t

end

/-! ## Parser engine (`Q.Parser`, part_009) -/

/-- The engine's mutable state: the backing token array the static list
wraps (entities ≡ indices into it), the source length (for `getEOF`), the
cursor, `cursorStack`, `errorFrames` (innermost frame first), and a flag
modelling a thrown programming-contract `Error` (restoring from an empty
stack, popping or reporting without a frame, or a `TypeError` on a `null`
token). -/
structure PState where
  backend : List Tok
  srcLen : Nat
  cursor : Nat
  stack : List Nat
  frames : List (List PErr)
  crashed : Bool
deriving DecidableEq, Repr

/-- `current.token` (static list: `backend[index] || null`). -/
def tokenAt (s : PState) : Option Tok := s.backend[s.cursor]?

/-- `eof()`: `current.token === null`. -/
def eofP (s : PState) : Bool := (tokenAt s).isNone

/-- The newline-skipping walk shared by `next()` and `parse()`. -/
def skipNewLinesF (backend : List Tok) : Nat → Nat → Nat
  | 0, i => i
  | fuel + 1, i =>
    match backend[i]? with
    | some t => if t.kind = .newLine then skipNewLinesF backend fuel (i + 1) else i
    | none => i

/-- The newline-skipping walk with the fuel its wrapper supplies (the walk
stops no later than the end of the array). -/
def skipNewLines (backend : List Tok) (i : Nat) : Nat :=
  skipNewLinesF backend (backend.length + 1) i

/-- `next()` (part_009): if at eof do nothing, otherwise advance one entity
and skip any run of newline tokens. -/
def nextP (s : PState) : PState :=
  match tokenAt s with
  | none => s
  | some _ => { s with cursor := skipNewLines s.backend (s.cursor + 1) }

/-- `store()`: push the current cursor. -/
def store (s : PState) : PState := { s with stack := s.cursor :: s.stack }

/-- `restore()`: pop the last stored cursor; popping an empty stack throws
(`crashed`). -/
def restore (s : PState) : PState :=
  match s.stack with
  | [] => { s with crashed := true }
  | c :: rest => { s with cursor := c, stack := rest }

/-- `reportError(...errors)`: append to the innermost frame; reporting with
no open frame throws. -/
def reportError (errs : List PErr) (s : PState) : PState :=
  match s.frames with
  | [] => { s with crashed := true }
  | f :: fs => { s with frames := (f ++ errs) :: fs }

/-- `addErrorFrame()`. -/
def addErrorFrame (s : PState) : PState := { s with frames := [] :: s.frames }

/-- `popErrorFrame(node)` (part_009, lines 128-133): pop the innermost
frame; if `node` is non-null push the frame's errors onto its diagnostics,
otherwise discard them. -/
def popErrorFrame (node : Option ANode) (s : PState) : Option ANode × PState :=
  match s.frames with
  | [] => (node, { s with crashed := true })
  | f :: fs => (node.map fun n => n.addDiags f, { s with frames := fs })

/-- What a step matcher returns: an `AST.Node`, an `AST.Node[]`, `true`,
or a false-ish value (`False` = `false | null | undefined | 0 | void`). -/
inductive StepRet where
  | node (n : ANode)
  | nodes (l : List ANode)
  | tru
  | fals
deriving Repr

/-- JavaScript truthiness of a step result (note: an empty array is
truthy). -/
def StepRet.truthy : StepRet → Bool
  | .fals => false
  | _ => true

/-- `Array.isArray(ret) && ret.length === 0`. -/
def StepRet.isEmptyArray : StepRet → Bool
  | .nodes [] => true
  | _ => false

/-- One step of a pattern: its name (from the `names` array) and its
matcher, which reads the parser state, may fill fields of the write-once
context `C`, and returns a `StepRet` (plus updated context and state). -/
structure PatternStep (C : Type) where
  name : String
  run : C → PState → StepRet × C × PState

/-- `(matchers.length / 2) | 0 || 1`. -/
def manyOf (n : Nat) : Nat := if n / 2 = 0 then 1 else n / 2

/-- Accumulator of `createPattern`'s matcher loop: the context record, the
`child` array, the matched-step `counter`, and the `entity` variable (the
cursor at the start of the most recent step). -/
structure PatAcc (C : Type) where
  context : C
  child : List ANode
  counter : Nat
  entity : Option Nat

/-- The `for` loop of `createPattern`'s matcher (part_009, lines 250-281).
`first` tracks `i === 0`; a `false` first component models `return null`
from inside the loop (the eof abort); reaching the end of the steps —
normally or through the eof `break` — yields `true`. -/
def patLoop {C : Type} (many : Nat) :
    List (PatternStep C) → Bool → PatAcc C → PState → Bool × PatAcc C × PState
  | [], _, acc, s => (true, acc, s)
  | step :: rest, first, acc, s =>
    if eofP s then
      if first || acc.counter < many then (false, acc, s)
      else (true, acc, reportError [.unexpectedEOF s.srcLen] s)
    else
      let entity := s.cursor
      let r := step.run acc.context s
      let ret := r.1
      let c2 := r.2.1
      let s2 := r.2.2
      let child2 :=
        match ret with
        | .node n => acc.child ++ [n]
        | .nodes l => acc.child ++ l
        | _ => acc.child
      let cs3 :=
        if ret.truthy then (acc.counter + 1, s2)
        else
          let s2a := { s2 with cursor := entity }
          (acc.counter,
            reportError [.expectedToken (((tokenAt s2a).getD default).pos) step.name] s2a)
      let counter2 := cs3.1
      let s3 := cs3.2
      let s4 :=
        if entity == s3.cursor && !ret.isEmptyArray then nextP s3
        else if !ret.truthy && rest.isEmpty then nextP s3
        else s3
      patLoop many rest false
        { context := c2, child := child2, counter := counter2, entity := some entity } s4

/-- `createPattern`'s matcher (part_009, lines 244-292): run the step loop,
then `return null` if fewer than `many` steps matched, otherwise set the
context's location from the start token and the last step's entity and call
the factory.  When the factory runs, at least one step ran from a non-eof
position, so `entity` is set and both `getD default` accesses are backed by
real tokens. -/
def runPatternMatcher {C : Type} (init : C) (factory : C → Loc → ANode)
    (steps : List (PatternStep C)) (s : PState) :
    Option ANode × List ANode × Nat × PState :=
  let startTok := tokenAt s
  let many := manyOf steps.length
  let r := patLoop many steps true { context := init, child := [], counter := 0, entity := none } s
  let acc := r.2.1
  let s2 := r.2.2
  if !r.1 then (none, acc.child, acc.counter, s2)
  else if acc.counter < many then (none, acc.child, acc.counter, s2)
  else
    let e := acc.entity.getD 0
    let lastTok := (s2.backend[e]?).getD default
    let loc : Loc := { start := (startTok.getD default).pos, stop := lastTok.pos + lastTok.len }
    (some (factory acc.context loc), acc.child, acc.counter, s2)

/-- The function returned by `createPattern` (part_009, lines 294-311):
store the cursor, open an error frame, run the matcher; on `null` restore
the cursor (on success the stored cursor is left on the stack); pop the
frame onto the produced node (or discard it). -/
def createPattern {C : Type} (init : C) (factory : C → Loc → ANode)
    (steps : List (PatternStep C)) (s : PState) : Option ANode × PState :=
  let s1 := addErrorFrame (store s)
  let r := runPatternMatcher init factory steps s1
  let value := r.1
  let s2 := r.2.2.2
  let s3 := if value.isNone then restore s2 else s2
  popErrorFrame value s3

/-- The while loop of `lrBinary`'s matcher (part_009, lines 343-357).
Each iteration consumes the operator token, so fuel `backend.length + 1`
suffices for the grammar's operand matchers; running out of fuel behaves
like `break` (never reached in the runs below). -/
def lrBinaryLoop (factory : Loc → ANode → ANode → Tok → ANode)
    (isOp : PState → Bool) (rhs : PState → Option ANode × PState) :
    Nat → ANode → PState → ANode × PState
  | 0, prev, s => (prev, s)
  | fuel + 1, prev, s =>
    if eofP s then (prev, s)
    else
      match tokenAt s with
      | none => (prev, s)
      | some opTok =>
        if !isOp s then (prev, s)
        else
          let s1 := nextP s
          let e := s1.cursor
          let r := rhs s1
          match r.1 with
          | none => (prev, r.2)
          | some right =>
            let s3 := if e == r.2.cursor then nextP r.2 else r.2
            lrBinaryLoop factory isOp rhs fuel
              (factory { start := 0, stop := 0 } prev right opTok) s3

/-- `lrBinary` (part_009, lines 314-374): the same store/frame wrapper
around a head-then-fold matcher; the produced location is the dummy
`(0, 0)` span the source builds. -/
def lrBinary (factory : Loc → ANode → ANode → Tok → ANode)
    (head : PState → Option ANode × PState) (isOp : PState → Bool)
    (rhs : PState → Option ANode × PState) (s : PState) : Option ANode × PState :=
  let s1 := addErrorFrame (store s)
  let e := s1.cursor
  let h := head s1
  match h.1 with
  | none => popErrorFrame none (restore h.2)
  | some prev =>
    let s3 := if e == h.2.cursor then nextP h.2 else h.2
    let r := lrBinaryLoop factory isOp rhs (s3.backend.length + 1) prev s3
    popErrorFrame (some r.1) r.2

/-- `readArray(matcher, end?)` (part_009, lines 144-165) with explicit
fuel: collect matches; on failure either stop via the `end` predicate or
report `UnexpectedToken` at the current token and `next()` past it.  A
`null` current token at the report (impossible while the loop invariantly
sits on a real token) is the modelled crash. -/
def readArrayF (matcher : PState → Option ANode × PState)
    (endP : Option (PState → Bool)) : Nat → PState → Option (List ANode) × PState
  | 0, s => (none, s)
  | fuel + 1, s =>
    if eofP s then (some [], s)
    else
      let m := matcher s
      match m.1 with
      | some v =>
        let r := readArrayF matcher endP fuel m.2
        (r.1.map (v :: ·), r.2)
      | none =>
        let cont := fun (s1 : PState) =>
          match tokenAt s1 with
          | some t =>
            let s2 := nextP (reportError [.unexpectedToken t.pos t.len] s1)
            readArrayF matcher endP fuel s2
          | none => (some [], { s1 with crashed := true })
        match endP with
        | some ep => if ep m.2 then (some [], m.2) else cont m.2
        | none => cont m.2

/-- The `end()` helper of `readArraySep`:
`isEnd ? eof() || isEnd(current) : eof()`. -/
def sepEnd (isEnd : Option (PState → Bool)) (s : PState) : Bool :=
  match isEnd with
  | some f => eofP s || f s
  | none => eofP s

/-- `readArraySep(matcher, isSep, isEnd?)` (part_009, lines 175-225) with
explicit fuel.  The loop state: collected values, `hasSep`, `lastSepToken`
(as a cursor index; `none` = never assigned), `lastPushed`.  The
separator-test assignments `isSep((lastSepToken = current))` — including
the short-circuit that skips the assignment when `!end()` fails on the
value branch — are mirrored exactly. -/
def readArraySepF (matcher : PState → Option ANode × PState)
    (isSep : PState → Bool) (isEnd : Option (PState → Bool)) :
    Nat → List ANode → Bool → Option Nat → Bool → PState → Option (List ANode) × PState
  | 0, _, _, _, _, s => (none, s)
  | fuel + 1, collected, hasSep, lastSep, lastPushed, s =>
    if sepEnd isEnd s then
      let s2 :=
        if hasSep then
          match lastSep with
          | some i =>
            reportError [.trailingListSeparator (((s.backend[i]?).getD default).pos)] s
          | none => { s with crashed := true }
        else s
      (some collected, s2)
    else
      let m := matcher s
      let s1 := m.2
      let s2 :=
        if m.1.isSome && !hasSep && lastPushed then
          if s1.cursor = 0 then { s1 with crashed := true }
          else
            let lt := (s1.backend[s1.cursor - 1]?).getD default
            reportError [.missedListSeparator (lt.pos + lt.len)] s1
        else s1
      let hl :=
        if m.1.isSome then
          if sepEnd isEnd s2 then (false, lastSep)
          else (isSep s2, some s2.cursor)
        else (isSep s2, some s2.cursor)
      let hasSep2 := hl.1
      let lastSep2 := hl.2
      let s3 := if hasSep2 then nextP s2 else s2
      match m.1 with
      | some v => readArraySepF matcher isSep isEnd fuel (collected ++ [v]) hasSep2 lastSep2 true s3
      | none =>
        if hasSep2 then
          let s4 :=
            match lastSep2 with
            | some i => reportError [.extraListSeparator (((s3.backend[i]?).getD default).pos)] s3
            | none => { s3 with crashed := true }
          readArraySepF matcher isSep isEnd fuel collected hasSep2 lastSep2 false s4
        else
          let s4 :=
            match tokenAt s3 with
            | some t => nextP (reportError [.unexpectedToken t.pos t.len] s3)
            | none => { s3 with crashed := true }
          readArraySepF matcher isSep isEnd fuel collected hasSep2 lastSep2 false s4

/-! ## Grammar (src/src/parserGrammar.ts) -/

/-- `current.isKeyword(name)`. -/
def isKeywordAt (s : PState) (name : String) : Bool :=
  match tokenAt s with
  | some t => t.kind == .identifier && t.keyword && t.text == name
  | none => false

/-- `current.isPunctuation(p)`. -/
def isPunctuationAt (s : PState) (p : String) : Bool :=
  match tokenAt s with
  | some t => t.kind == .punctuation && t.text == p
  | none => false

/-- `current.asIdentifer()` (part_004): a fresh `AST.Identifier` when the
current token is a non-keyword identifier, else `null`. -/
def asIdentiferAt (s : PState) : Option ANode :=
  match tokenAt s with
  | some t =>
    if t.kind == .identifier && !t.keyword then
      some (.identifier { start := t.pos, stop := t.pos + t.len } t.text [])
    else none
  | none => none

/-- `Grammar.memberAccess`. -/
def memberAccess (s : PState) : Option ANode × PState :=
  lrBinary (fun loc lhs rhs _ => .memberAccessNode loc lhs rhs [])
    (fun s => (asIdentiferAt s, s))
    (fun s => isPunctuationAt s ".")
    (fun s => (asIdentiferAt s, s)) s

/-- `Grammar.typeRef`: `memberAccess() || current.asIdentifer()`. -/
def typeRef (s : PState) : Option ANode × PState :=
  let m := memberAccess s
  match m.1 with
  | some n => (some n, m.2)
  | none => (asIdentiferAt m.2, m.2)

/-- Write-once context of the `parameter` pattern. -/
structure ParamCtx where
  name : Option ANode := none
  type : Option ANode := none
deriving Repr

/-- A `StepRet` from an assignment of an `AST.Node | null` value. -/
def retOfNode : Option ANode → StepRet
  | some n => .node n
  | none => .fals

/-- A `StepRet` from a boolean step. -/
def retOfBool (b : Bool) : StepRet := if b then .tru else .fals

/-- The two steps of `Grammar.parameter`. -/
def parameterSteps : List (PatternStep ParamCtx) :=
  [⟨"type reference", fun c s =>
      let t := typeRef s
      (retOfNode t.1, { c with type := t.1 }, t.2)⟩,
   ⟨"identifier", fun c s =>
      let r := asIdentiferAt s
      (retOfNode r, { c with name := r }, s)⟩]

/-- `Grammar.parameter`. -/
def parameterRule (s : PState) : Option ANode × PState :=
  createPattern {} (fun c loc => .parameterNode loc c.name c.type []) parameterSteps s

/-- Write-once context of the `declaration` pattern. -/
structure DeclCtx where
  name : Option ANode := none
  parameters : Option (List ANode) := none
deriving Repr

/-- The five steps of `Grammar.declaration`.  The `parameters` step runs
`readArraySep(parameter, "," , ")")`; its returned array is truthy even
when empty.  Fuel exhaustion of the inner loop is surfaced as a crash. -/
def declarationSteps : List (PatternStep DeclCtx) :=
  [⟨"func", fun c s => (retOfBool (isKeywordAt s "func"), c, s)⟩,
   ⟨"identifier", fun c s =>
      let r := asIdentiferAt s
      (retOfNode r, { c with name := r }, s)⟩,
   ⟨"(", fun c s => (retOfBool (isPunctuationAt s "("), c, s)⟩,
   ⟨"parameters", fun c s =>
      let r := readArraySepF parameterRule (fun st => isPunctuationAt st ",")
        (some fun st => isPunctuationAt st ")") (s.backend.length + 1) [] false none false s
      match r.1 with
      | some l => (.nodes l, { c with parameters := some l }, r.2)
      | none => (.fals, c, { r.2 with crashed := true })⟩,
   ⟨")", fun c s => (retOfBool (isPunctuationAt s ")"), c, s)⟩]

/-- `Grammar.declaration`. -/
def declaration (s : PState) : Option ANode × PState :=
  createPattern {}
    (fun c loc => .functionDeclaration loc c.name c.parameters [] []) declarationSteps s

/-- `Grammar.source`: `readArray(declaration)`. -/
def sourceRule (s : PState) : Option (List ANode) × PState :=
  readArrayF declaration none (s.backend.length + 1) s

/-- `parse(tokens)` (part_009, lines 21-32): reset the cursor stack to the
entry entity, skip leading newlines, open the outermost error frame (it is
never popped; errors reported at the top level stay in it and are attached
to no node), and run the grammar. -/
def parse (backend : List Tok) (srcLen : Nat) : Option (List ANode) × PState :=
  let s0 : PState :=
    { backend := backend, srcLen := srcLen, cursor := skipNewLines backend 0,
      stack := [0], frames := [[]], crashed := false }
  sourceRule s0

/-! ## Source-file diagnostics accessors (src/src/source.ts) -/

/-- `getParseErrors()` (src/src/source.ts, lines 77-85): `[]` when the file
was never parsed; otherwise, for each top-level node of the AST, the node's
own `diagnostics` — the walk does not descend into children. -/
def getParseErrors (parseInfo : Option (List ANode)) : List PErr :=
  match parseInfo with
  | none => []
  | some ast => (ast.map ANode.diagnostics).flatten

/-- In `get hasError() { return this.getParseErrors.length > 0 }`
(src/src/source.ts, lines 90-92) the method is not called: `.length` of a
JavaScript function is its declared parameter count, and `getParseErrors`
declares no parameters. -/
def getParseErrorsFunctionLength : Nat := 0

/-- `hasError` (src/src/source.ts, lines 90-92). -/
def hasError (_parseInfo : Option (List ANode)) : Bool :=
  decide (getParseErrorsFunctionLength > 0)

/-- The depth-first diagnostic aggregation of a whole parsed source (what
§6 of the spec describes: walking the AST's diagnostics depth-first). -/
def depthFirstDiagnostics (ast : List ANode) : List PErr :=
  getAllDiagnosticsList ast

/-! ## Observers used to state the concrete test-scenario claims -/

/-- `declaration.name.name`: the name of a function declaration node. -/
def declName : ANode → Option String
  | .functionDeclaration _ (some (.identifier _ n _)) _ _ _ => some n
  | _ => none

/-- `ast[i].name.name` of a parse result. -/
def astNameAt (parseInfo : Option (List ANode)) (i : Nat) : Option String :=
  (parseInfo.bind fun l => l[i]?).bind declName

/-- Number of top-level nodes of a parse result. -/
def astLength (parseInfo : Option (List ANode)) : Option Nat :=
  parseInfo.map List.length

/-! ## Specification-side string-scanning functions (for the unterminated
string literal claim).  These are written from the spec's description of
escape processing, independently of `readEscaped`, and the corresponding
theorem proves the tokenizer refines them. -/

/-- The escape-processed content of a delimiter-less tail, tracked with
the scanner's `escaped` flag: a backslash consumes the following character
verbatim; a trailing lone backslash is dropped (the scanner ends in the
`escaped` state without appending). -/
def unescapeGo : Bool → List Char → List Char
  | _, [] => []
  | true, c :: t => c :: unescapeGo false t
  | false, c :: t => if c = '\\' then unescapeGo true t else c :: unescapeGo false t

/-- The escape-processed content, starting outside an escape. -/
def unescapeAll (l : List Char) : List Char := unescapeGo false l

/-- Whether an unescaped occurrence of the (non-backslash) delimiter `q`
appears in `l` (escaped characters are skipped), with the `escaped` flag
tracked. -/
def hasCloserGo : Bool → Char → List Char → Bool
  | _, _, [] => false
  | true, q, _ :: t => hasCloserGo false q t
  | false, q, c :: t =>
    if c = '\\' then hasCloserGo true q t
    else if c = q then true else hasCloserGo false q t

/-- Whether an unescaped occurrence of the delimiter `q` appears in `l`. -/
def hasCloser (q : Char) (l : List Char) : Bool := hasCloserGo false q l

/-! ## Concrete scenario data referenced by the claims -/

/-- The matcher of the `declaration` pattern together with the `child`
array and matched-step `counter` it computed, run the way the returned
rule function runs it (after `store()` and `addErrorFrame()`). -/
def declarationMatcherRun (s : PState) : Option ANode × List ANode × Nat × PState :=
  runPatternMatcher {}
    (fun c loc => .functionDeclaration loc c.name c.parameters [] [])
    declarationSteps (addErrorFrame (store s))

/-- The parser state `parse()` sets up for a freshly tokenized text. -/
def initState (text : List Char) : PState :=
  { backend := (tokenize text).1, srcLen := text.length,
    cursor := skipNewLines (tokenize text).1 0,
    stack := [0], frames := [[]], crashed := false }

/-- The source text of the edit test (`test/parser/edit.ts`):
`"func a()\n\nfunc b(X, Y)"`.  Byte 5 is the identifier `a`; byte 6 is the
punctuation `(`. -/
def editTestText : List Char := "func a()\n\nfunc b(X, Y)".toList

/-- Its materialized token list and drained stream. -/
def editTestList : List Tok × Stream := drainedStream editTestText

/-- `applyEdit` at the offsets the claim (and `test/parser/edit.ts`) use:
replace `[6,7)` — which is the `(`, not the identifier `a` — by `z`. -/
def editInfoClaimed : EditInfo :=
  applyEdit editTestList.1 editTestList.2 (editText editTestText 6 7 ['z']) 6 7 7

/-- `applyEdit` at the offsets that actually cover the identifier `a`:
replace `[5,6)` by `z`. -/
def editInfoActual : EditInfo :=
  applyEdit editTestList.1 editTestList.2 (editText editTestText 5 6 ['z']) 5 6 6

/-- The edited text `"func z()\n\nfunc b(X, Y)"`. -/
def editedText : List Char := editText editTestText 5 6 ['z']

/-- Re-parsing after the edit (`source.parse()` re-tokenizes the edited
content and parses it afresh). -/
def reparseEdited : Option (List ANode) × PState :=
  parse (tokenize editedText).1 editedText.length

/-- The state for the token sequence of `";;; X Y"` — three tokens that
fail the first three declaration steps, followed by a parameter run that
the nested `parameter` rule matches. -/
def stackLeakState : PState := initState ";;; X Y".toList

/-- The state for `"func a"` — a declaration attempt in which exactly the
`func` and name steps match before end-of-file. -/
def funcAState : PState := initState "func a".toList

/-- The parse of `"func a(X)"`: the `parameter` child node carries an
`ExpectedToken` diagnostic of its own while the top-level declaration
carries only an `UnexpectedEOF`. -/
def paramDiagParse : Option (List ANode) × PState :=
  parse (tokenize "func a(X)".toList).1 9

/-- A matcher that always fails and leaves the state unchanged (used to
instantiate the `readArray` termination theorem at a concrete input). -/
def failMatcher : PState → Option ANode × PState := fun s => (none, s)

/-- A concrete three-token backing array (ordered, non-overlapping spans
with gaps) for instantiating the `findTokenIndexAtPosition` theorem. -/
def c6Tokens : List Tok :=
  [{ kind := .punctuation, pos := 0, len := 1, text := ";" },
   { kind := .punctuation, pos := 2, len := 1, text := ";" },
   { kind := .punctuation, pos := 5, len := 3, text := "(" }]

/-- A one-token state for the same instantiation. -/
def oneTokState : PState :=
  { backend := [{ kind := .punctuation, pos := 0, len := 1, text := ";" }],
    srcLen := 1, cursor := 0, stack := [], frames := [[]], crashed := false }

/-! # Theorems -/

set_option maxHeartbeats 8000000

/-! ## Shared helper lemmas -/

theorem manyOf_pos (n : Nat) : 1 ≤ manyOf n := by
  unfold manyOf
  split <;> omega

/-- If the loop of `createPattern` reports failure, fewer than `many`
steps had matched (assuming the counter starts at zero on the first step,
as it does in `runPatternMatcher`, and `many ≥ 1`). -/
theorem patLoop_false_counter {C : Type} (many : Nat) (hm : 1 ≤ many) :
    ∀ (steps : List (PatternStep C)) (first : Bool) (acc : PatAcc C) (s : PState),
      (first = true → acc.counter = 0) →
      (patLoop many steps first acc s).1 = false →
      (patLoop many steps first acc s).2.1.counter < many := by
  intro steps
  induction steps with
  | nil =>
    intro first acc s _ hfalse
    simp [patLoop] at hfalse
  | cons step rest ih =>
    intro first acc s hfirst hfalse
    by_cases heof : eofP s = true
    · by_cases habort : (first || decide (acc.counter < many)) = true
      · have : (patLoop many (step :: rest) first acc s) = (false, acc, s) := by
          simp [patLoop, heof, habort]
        rw [this] at hfalse ⊢
        rcases Bool.or_eq_true _ _ |>.mp habort with h1 | h2
        · have hc0 := hfirst h1
          show acc.counter < many
          omega
        · show acc.counter < many
          exact of_decide_eq_true h2
      · have : (patLoop many (step :: rest) first acc s) =
            (true, acc, reportError [.unexpectedEOF s.srcLen] s) := by
          simp [patLoop, heof, habort]
        rw [this] at hfalse
        simp at hfalse
    · have heq : (patLoop many (step :: rest) first acc s) =
          patLoop many rest false
            { context := (step.run acc.context s).2.1,
              child := match (step.run acc.context s).1 with
                | .node n => acc.child ++ [n]
                | .nodes l => acc.child ++ l
                | _ => acc.child,
              counter := (if (step.run acc.context s).1.truthy then
                  (acc.counter + 1, (step.run acc.context s).2.2)
                else
                  (acc.counter,
                    reportError [.expectedToken
                      (((tokenAt { (step.run acc.context s).2.2 with cursor := s.cursor }).getD default).pos)
                      step.name] { (step.run acc.context s).2.2 with cursor := s.cursor })).1,
              entity := some s.cursor }
            (let s3 := (if (step.run acc.context s).1.truthy then
                  (acc.counter + 1, (step.run acc.context s).2.2)
                else
                  (acc.counter,
                    reportError [.expectedToken
                      (((tokenAt { (step.run acc.context s).2.2 with cursor := s.cursor }).getD default).pos)
                      step.name] { (step.run acc.context s).2.2 with cursor := s.cursor })).2
             if s.cursor == s3.cursor && !(step.run acc.context s).1.isEmptyArray then nextP s3
             else if !(step.run acc.context s).1.truthy && rest.isEmpty then nextP s3
             else s3) := by
        simp [patLoop, heof]
      rw [heq] at hfalse ⊢
      exact ih false _ _ (by simp) hfalse

/-! ## C1 -/

/-- C1, counterexample.  The claim says a pattern over `n` step matchers
fails to synthesize a node whenever fewer than `ceil(n/2)` of its steps
match.  The `declaration` pattern has `n = 5` steps, so `ceil(n/2) = 3`;
on the token stream of `"func a"` only the two steps `func` and
`identifier` match (the loop then hits end-of-file), yet the matcher
synthesizes a `FunctionDeclaration` node: the implemented threshold is
`floor(n/2) || 1 = 2`, not `ceil(n/2)`. -/
theorem C1_counterexample :
    declarationSteps.length = 5 ∧
    (5 + 1) / 2 = 3 ∧
    (declarationMatcherRun funcAState).2.2.1 = 2 ∧
    (declarationMatcherRun funcAState).1.isSome = true ∧
    (declaration funcAState).1.isSome = true := by
  decide

/-- C1, amended: for every pattern built with `createPattern` over `n`
step matchers, the matcher synthesizes a node exactly when at least
`max(floor(n/2), 1)` (namely `manyOf n`) of the attempted steps matched —
the counter the loop accumulated — and fails whenever fewer matched. -/
theorem C1_pattern_threshold {C : Type} (init : C) (factory : C → Loc → ANode)
    (steps : List (PatternStep C)) (s : PState) :
    (runPatternMatcher init factory steps s).1.isSome = true ↔
      manyOf steps.length ≤ (runPatternMatcher init factory steps s).2.2.1 := by
  have hm := manyOf_pos steps.length
  unfold runPatternMatcher
  by_cases h1 : (patLoop (manyOf steps.length) steps true
      { context := init, child := [], counter := 0, entity := none } s).1 = true
  · by_cases h2 : (patLoop (manyOf steps.length) steps true
        { context := init, child := [], counter := 0, entity := none } s).2.1.counter <
        manyOf steps.length
    · simp only [h1, h2]
      simp
      omega
    · simp only [h1, h2]
      simp
      omega
  · have h1f : (patLoop (manyOf steps.length) steps true
        { context := init, child := [], counter := 0, entity := none } s).1 = false := by
      simpa using h1
    have hlt := patLoop_false_counter (manyOf steps.length) hm steps true
      { context := init, child := [], counter := 0, entity := none } s (fun _ => rfl) h1f
    simp only [h1f]
    simp
    omega

/-! ## C2 -/

/-- C2, divergence theorem.  The claim says that whenever a `createPattern`
matcher fails to produce a node, the cursor is restored to the exact
entity it pointed at when the rule was entered.  On the token stream of
`";;; X Y"` the `declaration` rule is entered at entity 0, fails
(only the `parameters` step matches), and leaves the cursor at entity 3 —
the start of the nested `parameter` rule that succeeded inside the
`parameters` step.  The successful nested rules (`parameter` and the
`lrBinary` member-access) each left their stored cursor on `cursorStack`
(`createPattern` only pops on failure), so the failing outer rule's
`restore()` popped a nested rule's entry instead of its own.  The rule's
own error frame is nonetheless popped and discarded (`frames` is back to
the outer frame only), which is the claim's diagnostics half. -/
theorem C2_cursor_not_restored :
    stackLeakState.cursor = 0 ∧
    (declaration stackLeakState).1.isNone = true ∧
    (declaration stackLeakState).2.cursor = 3 ∧
    (declaration stackLeakState).2.stack = [3, 0, 0] ∧
    (declaration stackLeakState).2.frames = [[]] ∧
    (declaration stackLeakState).2.crashed = false := by
  decide

/-! ## C9 -/

/-- C9, counterexample.  For the parse of `"func a(X)"` the list
`getParseErrors` returns (the top-level declaration's own diagnostics,
here a single `UnexpectedEOF`) differs from the depth-first aggregation of
the AST's diagnostics, which additionally contains the `ExpectedToken`
diagnostic attached to the `parameter` child node. -/
theorem C9_counterexample :
    getParseErrors paramDiagParse.1 = [.unexpectedEOF 9] ∧
    paramDiagParse.1.map depthFirstDiagnostics =
      some [.unexpectedEOF 9, .expectedToken 8 "identifier"] ∧
    ¬ getParseErrors paramDiagParse.1 =
        [.unexpectedEOF 9, .expectedToken 8 "identifier"] := by
  decide

/-- Every node's own diagnostics list is a prefix (hence sublist) of its
depth-first aggregation. -/
theorem diagnostics_sublist_getAll (n : ANode) :
    n.diagnostics.Sublist (getAllDiagnostics n) := by
  cases n with
  | identifier l nm d => simp [ANode.diagnostics, getAllDiagnostics]
  | functionDeclaration l nm ps b d =>
    cases ps with
    | none => simp [ANode.diagnostics, getAllDiagnostics]
    | some ps => simp [ANode.diagnostics, getAllDiagnostics]
  | parameterNode l nm t d => simp [ANode.diagnostics, getAllDiagnostics]
  | memberAccessNode l b m d => simp [ANode.diagnostics, getAllDiagnostics]

/-- C9, amended: `getParseErrors` returns `[]` when the source has not
been parsed, and for a parsed source it returns the concatenation of the
top-level declarations' own diagnostics only — an in-order sublist of the
depth-first aggregation, but (per the counterexample) not all of it:
descendants' diagnostics are never surfaced. -/
theorem C9_getParseErrors_amended :
    getParseErrors none = [] ∧
    ∀ ast : List ANode,
      getParseErrors (some ast) = (ast.map ANode.diagnostics).flatten ∧
      (getParseErrors (some ast)).Sublist (depthFirstDiagnostics ast) := by
  refine ⟨rfl, fun ast => ⟨rfl, ?_⟩⟩
  induction ast with
  | nil => simp [getParseErrors, depthFirstDiagnostics, getAllDiagnosticsList]
  | cons n t ih =>
    have h1 : getParseErrors (some (n :: t)) =
        n.diagnostics ++ (t.map ANode.diagnostics).flatten := by
      simp [getParseErrors]
    have h2 : depthFirstDiagnostics (n :: t) =
        getAllDiagnostics n ++ depthFirstDiagnostics t := rfl
    rw [h1, h2]
    exact List.Sublist.append (diagnostics_sublist_getAll n) ih

/-! ## C10 -/

/-- C10: in every state the `hasError` getter returns `false`, because
`this.getParseErrors.length` reads the arity of the un-called method
(which is 0) rather than calling it — even in a parsed state in which
`getParseErrors()` itself returns a non-empty list (the parse of
`"func a(X)"`). -/
theorem C10_hasError_always_false :
    (∀ parseInfo : Option (List ANode), hasError parseInfo = false) ∧
    ¬ getParseErrors paramDiagParse.1 = [] ∧
    hasError paramDiagParse.1 = false := by
  exact ⟨fun _ => rfl, by decide, rfl⟩

/-! ## C5 -/

/-- C5, counterexample.  In `"func a()\n\nfunc b(X, Y)"` the identifier
`a` occupies `[5,6)`, not `[6,7)` as the claim asserts — offset 6 is the
`(`.  Performing the claim's edit (`edit(6,7,"z")`, `applyEdit(6,7,7)`)
does report `numInserted = 1`, `delCount = 1` and an edit head lexed as
identifier `z`, but the head entity's `prev` is the identifier `a` (not
the keyword `func`) and its `next` is the `)` (not the `(`), refuting the
claim's neighbor conjuncts. -/
theorem C5_counterexample :
    editInfoClaimed.numInserted = 1 ∧
    editInfoClaimed.delCount = 1 ∧
    asIdentiferEnt editInfoClaimed.backend2 editInfoClaimed.editHead.toNat = some "z" ∧
    isKeywordEnt editInfoClaimed.backend2 (editInfoClaimed.editHead.toNat - 1) "func" = false ∧
    asIdentiferEnt editInfoClaimed.backend2 (editInfoClaimed.editHead.toNat - 1) = some "a" ∧
    isPunctuationEnt editInfoClaimed.backend2 (editInfoClaimed.editHead.toNat + 1) "(" = false ∧
    isPunctuationEnt editInfoClaimed.backend2 (editInfoClaimed.editHead.toNat + 1) ")" = true := by
  decide

/-- C5, amended.  With the edit applied to the span `[5,6)` that actually
holds the identifier `a` (`edit(5,6,"z")`, `applyEdit(5,6,6)`):
`numInserted = 1`, `delCount = 1`, the edit head is the identifier token
`z` whose `prev` is the keyword `func` and whose `next` is the `(`; and
re-parsing yields two declarations named `z` and `b`, with
`source.hasError` still reporting `false` — though `getParseErrors()`
actually returns the `MissedListSeparator` and `UnexpectedEOF`
diagnostics this grammar produces on the parameter list `(X, Y)`, so
"zero errors" holds only through the constantly-false `hasError`. -/
theorem C5_edit_splice_amended :
    editInfoActual.numInserted = 1 ∧
    editInfoActual.delCount = 1 ∧
    editInfoActual.editHead = 1 ∧
    editInfoActual.diverged = false ∧
    asIdentiferEnt editInfoActual.backend2 1 = some "z" ∧
    isKeywordEnt editInfoActual.backend2 0 "func" = true ∧
    isPunctuationEnt editInfoActual.backend2 2 "(" = true ∧
    astLength reparseEdited.1 = some 2 ∧
    astNameAt reparseEdited.1 0 = some "z" ∧
    astNameAt reparseEdited.1 1 = some "b" ∧
    hasError reparseEdited.1 = false ∧
    getParseErrors reparseEdited.1 = [.missedListSeparator 22, .unexpectedEOF 22] := by
  decide

/-! ## C7 -/

theorem getElem?_drop_cons {α : Type} {l : List α} {i : Nat} {a : α}
    (h : l[i]? = some a) : l.drop i = a :: l.drop (i + 1) := by
  have hi : i < l.length := (List.getElem?_eq_some.mp h).1
  have ha : l[i] = a := by
    have := (List.getElem?_eq_some.mp h).2
    exact this
  rw [List.drop_eq_getElem_cons hi, ha]

theorem skipWhiteSpace_not_ws {text : List Char} {cursor : Nat} {c : Char}
    (h : text[cursor]? = some c) (hw : jsWhitespace c = false) :
    skipWhiteSpace text cursor = cursor := by
  unfold skipWhiteSpace skipWhiteSpaceF
  rw [h]
  simp [hw]

theorem skipWhiteSpaceF_at_end {text : List Char} {cursor : Nat}
    (h : text.length ≤ cursor) :
    ∀ fuel, skipWhiteSpaceF text fuel cursor = cursor := by
  intro fuel
  cases fuel with
  | zero => rfl
  | succ fuel =>
    unfold skipWhiteSpaceF
    rw [List.getElem?_eq_none h]

/-- The scanner's escape loop on a tail with no unescaped closing
delimiter: it drains the text, returning the escape-processed content and
the end-of-text cursor with the `found` flag false. -/
theorem readEscapedGo_unterminated (text : List Char) (q : Char) (hq : ¬ q = '\\') :
    ∀ (fuel cursor : Nat) (escaped : Bool) (str : List Char),
      cursor ≤ text.length →
      text.length + 1 - cursor ≤ fuel →
      hasCloserGo escaped q (text.drop cursor) = false →
      readEscapedGo text q fuel cursor escaped str =
        (str ++ unescapeGo escaped (text.drop cursor), text.length, false) := by
  intro fuel
  induction fuel with
  | zero => intro cursor escaped str hcur hf _; omega
  | succ fuel ih =>
    intro cursor escaped str hcur hf hnc
    unfold readEscapedGo
    match hc : text[cursor]? with
    | none =>
      have hcl : cursor = text.length := by
        have := List.getElem?_eq_none_iff.mp hc
        omega
      have hdrop : text.drop cursor = [] := by
        rw [hcl]
        simp
      rw [hdrop] at hnc ⊢
      cases escaped <;> simp [unescapeGo, hcl]
    | some ch =>
      have hlt : cursor < text.length := (List.getElem?_eq_some.mp hc).1
      have hdrop : text.drop cursor = ch :: text.drop (cursor + 1) := getElem?_drop_cons hc
      rw [hdrop] at hnc ⊢
      cases escaped with
      | true =>
        simp only [if_true]
        have hnc2 : hasCloserGo false q (text.drop (cursor + 1)) = false := by
          simpa [hasCloserGo] using hnc
        rw [ih (cursor + 1) false (str ++ [ch]) (by omega) (by omega) hnc2]
        simp [unescapeGo]
      | false =>
        by_cases hbs : ch = '\\'
        · subst hbs
          simp only [if_pos rfl, if_true]
          have hnc2 : hasCloserGo true q (text.drop (cursor + 1)) = false := by
            simpa [hasCloserGo, if_pos rfl] using hnc
          rw [ih (cursor + 1) true str (by omega) (by omega) hnc2]
          simp [unescapeGo]
        · have hch : ¬ ch = q := by
            intro hcq
            rw [hasCloserGo, if_neg hbs, if_pos hcq] at hnc
            cases hnc
          simp only [if_neg hbs, if_neg hch]
          have hnc2 : hasCloserGo false q (text.drop (cursor + 1)) = false := by
            rw [hasCloserGo, if_neg hbs, if_neg hch] at hnc
            exact hnc
          rw [ih (cursor + 1) false (str ++ [ch]) (by omega) (by omega) hnc2]
          rw [show unescapeGo false (ch :: List.drop (cursor + 1) text)
              = ch :: unescapeGo false (List.drop (cursor + 1) text) by
            rw [unescapeGo, if_neg hbs]]
          simp

/-- C7, amended.  When the scanner opens a string literal at position `p`
(a quote with no unescaped closing delimiter in the rest of the text), it
returns a string-literal token at `p` carrying the escape-processed
partial content, reports a single `UnterminatedStringLiteral` positioned
at the end of the text (not at the opening delimiter), leaves the cursor
at end-of-text, and the next scan from there yields no token and no
further error (scanning continues without throwing). -/
theorem C7_unterminated_amended (text : List Char) (p : Nat) (q : Char)
    (hq : q = '"' ∨ q = '\'') (hp : text[p]? = some q)
    (hnc : hasCloser q (text.drop (p + 1)) = false) :
    readNext text p =
      (some { kind := .stringLiteral, pos := p,
              len := (unescapeAll (text.drop (p + 1))).length,
              text := String.mk (unescapeAll (text.drop (p + 1))) },
        text.length, [.unterminatedStringLiteral text.length]) ∧
    readNext text text.length = (none, text.length, []) := by
  have hlt : p < text.length := (List.getElem?_eq_some.mp hp).1
  constructor
  · have hwq : jsWhitespace q = false := by
      rcases hq with h | h <;> subst h <;> decide
    have hskip : skipWhiteSpace text p = p := skipWhiteSpace_not_ws hp hwq
    have hesc := readEscapedGo_unterminated text q
      (by rcases hq with h | h <;> subst h <;> decide)
      (text.length + 1) (p + 1) false [] (by omega) (by omega) hnc
    unfold readNext readNextF
    rw [hskip]
    simp only [hp]
    rcases hq with h | h <;> subst h <;>
      · simp only [isDigitCh, isIdentStart]
        unfold readEscaped
        rw [hesc]
        simp [unescapeAll]
  · have hsw : skipWhiteSpace text text.length = text.length := by
      unfold skipWhiteSpace
      exact skipWhiteSpaceF_at_end (Nat.le_refl _) _
    unfold readNext readNextF
    rw [hsw]
    simp [List.getElem?_eq_none (Nat.le_refl text.length)]

/-- C7, witness: the amended theorem applied to the concrete text
`"\"ab"` with the opening delimiter at offset 0. -/
theorem C7_witness :
    (("\"ab".toList)[0]? = some '"') ∧
    readNext "\"ab".toList 0 =
      (some { kind := .stringLiteral, pos := 0,
              len := (unescapeAll ("\"ab".toList.drop 1)).length,
              text := String.mk (unescapeAll ("\"ab".toList.drop 1)) },
        "\"ab".toList.length, [.unterminatedStringLiteral "\"ab".toList.length]) :=
  ⟨by decide,
   (C7_unterminated_amended "\"ab".toList 0 '"' (Or.inl rfl) (by decide) (by decide)).1⟩

/-- C7, counterexample.  Tokenizing `"\"ab"` (an unterminated string whose
opening delimiter sits at offset 0) reports `UnterminatedStringLiteral`
positioned at offset 3 — the end-of-text cursor — not at the opening
delimiter as the claim asserts. -/
theorem C7_counterexample :
    ("\"ab".toList)[0]? = some '"' ∧
    (readNext "\"ab".toList 0).1 =
      some { kind := .stringLiteral, pos := 0, len := 2, text := "ab" } ∧
    (readNext "\"ab".toList 0).2.2 = [.unterminatedStringLiteral 3] ∧
    ¬ (3 : Nat) = 0 := by
  decide

/-! ## C3 -/

theorem tokenAt_some_lt {s : PState} {t : Tok} (h : tokenAt s = some t) :
    s.cursor < s.backend.length := by
  unfold tokenAt at h
  exact (List.getElem?_eq_some.mp h).1

theorem eofP_false_lt {s : PState} (h : eofP s = false) :
    s.cursor < s.backend.length := by
  unfold eofP at h
  rw [Option.isNone_eq_false_iff, Option.isSome_iff_exists] at h
  obtain ⟨t, ht⟩ := h
  exact tokenAt_some_lt ht

theorem skipNewLinesF_ge (backend : List Tok) :
    ∀ (fuel i : Nat), i ≤ skipNewLinesF backend fuel i := by
  intro fuel
  induction fuel with
  | zero => intro i; simp [skipNewLinesF]
  | succ fuel ih =>
    intro i
    unfold skipNewLinesF
    match h : backend[i]? with
    | some t =>
      simp only [h]
      split
      · exact Nat.le_trans (Nat.le_succ i) (ih (i + 1))
      · exact Nat.le_refl i
    | none => simp [h]

theorem skipNewLinesF_le (backend : List Tok) :
    ∀ (fuel i : Nat), i ≤ backend.length →
      skipNewLinesF backend fuel i ≤ backend.length := by
  intro fuel
  induction fuel with
  | zero => intro i hi; simpa [skipNewLinesF] using hi
  | succ fuel ih =>
    intro i hi
    unfold skipNewLinesF
    match h : backend[i]? with
    | some t =>
      simp only [h]
      split
      · exact ih (i + 1) (List.getElem?_eq_some.mp h).1
      · exact hi
    | none => simpa [h] using hi

theorem nextP_backend (s : PState) : (nextP s).backend = s.backend := by
  unfold nextP
  match h : tokenAt s with
  | some t => simp [h]
  | none => simp [h]

theorem nextP_gt {s : PState} {t : Tok} (h : tokenAt s = some t) :
    s.cursor < (nextP s).cursor := by
  unfold nextP
  rw [h]
  exact Nat.lt_of_lt_of_le (Nat.lt_succ_self _)
    (skipNewLinesF_ge s.backend (s.backend.length + 1) (s.cursor + 1))

theorem nextP_le {s : PState} {t : Tok} (h : tokenAt s = some t) :
    (nextP s).cursor ≤ s.backend.length := by
  unfold nextP
  rw [h]
  exact skipNewLinesF_le s.backend (s.backend.length + 1) (s.cursor + 1)
    (tokenAt_some_lt h)

theorem reportError_cursor (errs : List PErr) (s : PState) :
    (reportError errs s).cursor = s.cursor := by
  unfold reportError
  match h : s.frames with
  | [] => rfl
  | f :: fs => rfl

theorem reportError_backend (errs : List PErr) (s : PState) :
    (reportError errs s).backend = s.backend := by
  unfold reportError
  match h : s.frames with
  | [] => rfl
  | f :: fs => rfl

theorem reportError_tokenAt (errs : List PErr) (s : PState) :
    tokenAt (reportError errs s) = tokenAt s := by
  unfold tokenAt
  rw [reportError_cursor, reportError_backend]

/-- `readArrayF` with fuel `backend.length + 1 - cursor` always returns
(first conjunct of the C3 theorem), provided the matcher preserves the
backing array, never moves the cursor backwards, keeps it within the
array, and consumes at least one token whenever it succeeds. -/
theorem readArrayF_isSome (m : PState → Option ANode × PState)
    (endP : Option (PState → Bool))
    (hback : ∀ s, ((m s).2).backend = s.backend)
    (hmono : ∀ s, s.cursor ≤ ((m s).2).cursor)
    (hbound : ∀ s, s.cursor ≤ s.backend.length → ((m s).2).cursor ≤ s.backend.length)
    (hprog : ∀ s, ((m s).1).isSome = true → s.cursor < ((m s).2).cursor) :
    ∀ (fuel : Nat) (s : PState), s.cursor ≤ s.backend.length →
      s.backend.length + 1 - s.cursor ≤ fuel →
      ((readArrayF m endP fuel s).1).isSome = true := by
  intro fuel
  induction fuel with
  | zero => intro s hs hf; omega
  | succ fuel ih =>
    intro s hs hf
    unfold readArrayF
    by_cases heof : eofP s = true
    · simp [heof]
    · have heof' : eofP s = false := by simpa using heof
      have hlt : s.cursor < s.backend.length := eofP_false_lt heof'
      simp only [heof', Bool.false_eq_true, if_false]
      have hrec : ((readArrayF m endP fuel (m s).2).1).isSome = true ∨ ((m s).1).isNone = true := by
        by_cases hsome : ((m s).1).isSome = true
        · left
          apply ih
          · rw [hback]
            exact hbound s hs
          · rw [hback]
            have := hprog s hsome
            omega
        · right
          match hm2 : (m s).1 with
          | none => rfl
          | some v => exact absurd (by simp [hm2]) hsome
      match hm : (m s).1 with
      | some v =>
        simp only [hm]
        rcases hrec with h | h
        · simpa using h
        · rw [hm] at h; simp at h
      | none =>
        have hcont : ∀ s1 : PState, s1.backend = s.backend → s.cursor ≤ s1.cursor →
            s1.cursor ≤ s.backend.length →
            (((match tokenAt s1 with
              | some t =>
                readArrayF m endP fuel (nextP (reportError [.unexpectedToken t.pos t.len] s1))
              | none => (some [], { s1 with crashed := true })) : Option (List ANode) × PState)).1.isSome
              = true := by
          intro s1 hb1 hc1 hl1
          match ht : tokenAt s1 with
          | some t =>
            simp only [ht]
            have hrt : tokenAt (reportError [PErr.unexpectedToken t.pos t.len] s1) = some t := by
              rw [reportError_tokenAt]; exact ht
            have hnb : (nextP (reportError [PErr.unexpectedToken t.pos t.len] s1)).backend
                = s1.backend := by
              rw [nextP_backend, reportError_backend]
            have hle2 : (nextP (reportError [PErr.unexpectedToken t.pos t.len] s1)).cursor
                ≤ s1.backend.length := by
              have h0 := nextP_le hrt
              rwa [reportError_backend] at h0
            have hgt2 : s1.cursor <
                (nextP (reportError [PErr.unexpectedToken t.pos t.len] s1)).cursor := by
              have h0 := nextP_gt hrt
              rwa [reportError_cursor] at h0
            apply ih
            · rw [hnb, hb1]
              rw [hb1] at hle2
              exact hle2
            · rw [hnb, hb1]
              rw [hb1] at hle2
              omega
          | none => simp [ht]
        match hend : endP with
        | some ep =>
          simp only [hm]
          by_cases hep : ep (m s).2 = true
          · simp [hep]
          · have hep' : ep (m s).2 = false := by simpa using hep
            simp only [hep', Bool.false_eq_true, if_false]
            exact hcont (m s).2 (hback s) (hmono s) (hbound s hs)
        | none =>
          simp only [hm]
          exact hcont (m s).2 (hback s) (hmono s) (hbound s hs)

/-- C3: for a matcher that preserves the token array, never moves the
cursor backwards, keeps it in bounds, and strictly advances whenever it
succeeds (as the grammar's `declaration` matcher does), a `readArray` call
terminates within fuel bounded by the number of tokens remaining — the
loop cannot stall — and on each failing iteration it appends
`UnexpectedToken` at the current token to the innermost error frame and
advances the cursor past at least one token. -/
theorem C3_readArray_progress (m : PState → Option ANode × PState)
    (endP : Option (PState → Bool))
    (hback : ∀ s, ((m s).2).backend = s.backend)
    (hmono : ∀ s, s.cursor ≤ ((m s).2).cursor)
    (hbound : ∀ s, s.cursor ≤ s.backend.length → ((m s).2).cursor ≤ s.backend.length)
    (hprog : ∀ s, ((m s).1).isSome = true → s.cursor < ((m s).2).cursor) :
    (∀ s : PState, s.cursor ≤ s.backend.length →
      ((readArrayF m endP (s.backend.length + 1 - s.cursor) s).1).isSome = true) ∧
    (∀ (s : PState) (t : Tok) (f : List PErr) (fs : List (List PErr)),
      tokenAt s = some t → s.frames = f :: fs →
      s.cursor < (nextP (reportError [.unexpectedToken t.pos t.len] s)).cursor ∧
      (nextP (reportError [.unexpectedToken t.pos t.len] s)).frames =
        (f ++ [.unexpectedToken t.pos t.len]) :: fs) := by
  constructor
  · intro s hs
    exact readArrayF_isSome m endP hback hmono hbound hprog _ s hs (Nat.le_refl _)
  · intro s t f fs ht hf
    constructor
    · have hgt := nextP_gt (reportError_tokenAt [PErr.unexpectedToken t.pos t.len] s ▸ ht)
      rw [reportError_cursor] at hgt
      exact hgt
    · have hframes : (reportError [PErr.unexpectedToken t.pos t.len] s).frames =
          (f ++ [PErr.unexpectedToken t.pos t.len]) :: fs := by
        unfold reportError
        rw [hf]
      unfold nextP
      rw [reportError_tokenAt, ht]
      simpa using hframes

/-- C3, witness: the termination theorem applied to a concrete one-token
state with a matcher that always fails in place. -/
theorem C3_witness :
    oneTokState.cursor ≤ oneTokState.backend.length ∧
    ((readArrayF failMatcher none
        (oneTokState.backend.length + 1 - oneTokState.cursor) oneTokState).1).isSome = true :=
  ⟨by decide,
   (C3_readArray_progress failMatcher none (fun _ => rfl) (fun _ => Nat.le_refl _)
      (fun _ hs => hs) (fun s h => by simp [failMatcher] at h)).1 oneTokState (by decide)⟩

/-! ## C8 -/

/-! ## C6 -/

theorem newStep_pos (step : Nat) : 1 ≤ newStep step := by
  unfold newStep
  split <;> omega

theorem newStep_of_lt {step : Nat} (h : step < 2) : newStep step = 1 := by
  unfold newStep
  have h2 : step / 2 = 0 := by omega
  simp [h2]

theorem newStep_of_ge {step : Nat} (h : 2 ≤ step) : newStep step = step / 2 := by
  unfold newStep
  have h2 : ¬ step / 2 = 0 := by omega
  simp [h2]

/-- Transitivity of the adjacent non-overlap relation between token spans. -/
theorem spans_ordered (backend : List Tok)
    (hord : ∀ i t u, backend[i]? = some t → backend[i + 1]? = some u →
      t.pos + t.len ≤ u.pos) :
    ∀ (d i : Nat) (t u : Tok), backend[i]? = some t →
      backend[i + d + 1]? = some u → t.pos + t.len ≤ u.pos := by
  intro d
  induction d with
  | zero => intro i t u ht hu; exact hord i t u ht hu
  | succ d ih =>
    intro i t u ht hu
    have hul : i + (d + 1) + 1 < backend.length := (List.getElem?_eq_some.mp hu).1
    have hi1 : i + 1 < backend.length := by omega
    have hmid : backend[i + 1]? = some backend[i + 1] := List.getElem?_eq_getElem hi1
    have h1 := hord i t _ ht hmid
    have h2 := ih (i + 1) _ u hmid (by
      rw [show i + 1 + d + 1 = i + (d + 1) + 1 by omega]
      exact hu)
    omega

theorem spans_lt (backend : List Tok)
    (hord : ∀ i t u, backend[i]? = some t → backend[i + 1]? = some u →
      t.pos + t.len ≤ u.pos)
    {i j : Nat} {t u : Tok} (hij : i < j) (ht : backend[i]? = some t)
    (hu : backend[j]? = some u) : t.pos + t.len ≤ u.pos := by
  have := spans_ordered backend hord (j - i - 1) i t u ht
    (by rw [show i + (j - i - 1) + 1 = j by omega]; exact hu)
  exact this

/-- Convergence of the decaying-step search: from a state satisfying the
phase invariant, the loop returns the index of the token containing `p`. -/
theorem ftiLoop_in_span (backend : List Tok) (p : Int) (k : Nat) (tk : Tok)
    (hord : ∀ i t u, backend[i]? = some t → backend[i + 1]? = some u →
      t.pos + t.len ≤ u.pos)
    (hk : backend[k]? = some tk)
    (hlo : (tk.pos : Int) ≤ p) (hhi : p < (tk.pos : Int) + tk.len) :
    ∀ (fuel : Nat) (index : Int) (step : Nat),
      0 ≤ index → index < (backend.length : Int) →
      (2 ≤ step → 2 * (step : Int) ≤ index ∧ index + 2 * (step : Int) ≤ backend.length) →
      (index - k).natAbs + 4 * step + (if step = 0 then 6 else 0) + 1 ≤ fuel →
      ftiLoop backend p 0 fuel index step = some (k : Int) := by
  have hkL : k < backend.length := (List.getElem?_eq_some.mp hk).1
  intro fuel
  induction fuel with
  | zero => intro index step _ _ _ hf; omega
  | succ fuel ih =>
    intro index step h0 hL hCA hf
    have hjL : index.toNat < backend.length := by omega
    have hj : backend[index.toNat]? = some backend[index.toNat] :=
      List.getElem?_eq_getElem hjL
    have hgetD : backend.getD index.toNat default = backend[index.toNat] :=
      List.getD_eq_getElem?_getD backend index.toNat default ▸ by rw [hj]; rfl
    unfold ftiLoop
    rw [if_pos ⟨hL, by simpa using h0⟩]
    simp only [hgetD]
    rcases Nat.lt_trichotomy index.toNat k with hlt | heq | hgt
    · have hle := spans_lt backend hord hlt hj hk
      have hg1 : ¬ ((backend[index.toNat].pos : Int) > p) := by
        have : (backend[index.toNat].pos : Int) ≤ tk.pos := by
          have := hle
          push_cast
          omega
        omega
      rw [if_neg hg1]
      have hg2 : ¬ (p < (backend[index.toNat].pos : Int) + backend[index.toNat].len) := by
        have : (backend[index.toNat].pos : Int) + backend[index.toNat].len ≤ tk.pos := by
          push_cast
          omega
        omega
      rw [if_neg hg2]
      rcases Nat.lt_or_ge step 2 with hs2 | hs2
      · rcases (show step = 0 ∨ step = 1 by omega) with h01 | h01
        · subst h01
          rw [newStep_of_lt (by omega)]
          apply ih
          · omega
          · omega
          · intro h; omega
          · norm_num at hf ⊢
            omega
        · subst h01
          rw [newStep_of_lt (by omega)]
          apply ih
          · omega
          · omega
          · intro h; omega
          · norm_num at hf ⊢
            omega
      · have hns := newStep_of_ge hs2
        obtain ⟨hca1, hca2⟩ := hCA hs2
        rw [hns]
        apply ih
        · omega
        · omega
        · intro h
          constructor <;> push_cast <;> omega
        · have hna : ((index + step) - k).natAbs ≤ (index - k).natAbs + step := by omega
          have hz1 : ¬ (step / 2 = 0) := by omega
          have hz2 : ¬ (step = 0) := by omega
          simp only [if_neg hz1, if_neg hz2] at hf ⊢
          omega
    · have htk : backend[index.toNat] = tk := by
        have hcongr : backend[index.toNat]? = backend[k]? := by rw [heq]
        have h2 : some backend[index.toNat] = some tk := by rw [← hj, hcongr, hk]
        exact Option.some.inj h2
      rw [htk]
      rw [if_neg (by omega)]
      rw [if_pos (by omega)]
      have : index = (k : Int) := by omega
      rw [this]
    · have hle := spans_lt backend hord hgt hk hj
      have hg1 : (backend[index.toNat].pos : Int) > p := by
        have : (tk.pos : Int) + tk.len ≤ backend[index.toNat].pos := by
          push_cast
          omega
        omega
      rw [if_pos hg1]
      rcases Nat.lt_or_ge step 2 with hs2 | hs2
      · rcases (show step = 0 ∨ step = 1 by omega) with h01 | h01
        · subst h01
          rw [newStep_of_lt (by omega)]
          apply ih
          · omega
          · omega
          · intro h; omega
          · norm_num at hf ⊢
            omega
        · subst h01
          rw [newStep_of_lt (by omega)]
          apply ih
          · omega
          · omega
          · intro h; omega
          · norm_num at hf ⊢
            omega
      · have hns := newStep_of_ge hs2
        obtain ⟨hca1, hca2⟩ := hCA hs2
        rw [hns]
        apply ih
        · omega
        · omega
        · intro h
          constructor <;> push_cast <;> omega
        · have hna : ((index - step) - k).natAbs ≤ (index - k).natAbs + step := by omega
          have hz1 : ¬ (step / 2 = 0) := by omega
          have hz2 : ¬ (step = 0) := by omega
          simp only [if_neg hz1, if_neg hz2] at hf ⊢
          omega

/-- When `p` lies at or past the end of every token, the search climbs out
of the array and returns `-1`. -/
theorem ftiLoop_past_end (backend : List Tok) (p : Int)
    (hall : ∀ (i : Nat) (t : Tok), backend[i]? = some t → (t.pos : Int) + t.len ≤ p) :
    ∀ (fuel : Nat) (index : Int) (step : Nat), 0 ≤ index →
      backend.length - index.toNat + (if step = 0 then 2 else 0) + 1 ≤ fuel →
      ftiLoop backend p 0 fuel index step = some (-1) := by
  intro fuel
  induction fuel with
  | zero => intro index step _ hf; omega
  | succ fuel ih =>
    intro index step h0 hf
    unfold ftiLoop
    by_cases hcond : index < (backend.length : Int) ∧ (((0 : Nat) : Int)) ≤ index
    · rw [if_pos hcond]
      have hjL : index.toNat < backend.length := by omega
      have hj : backend[index.toNat]? = some backend[index.toNat] :=
        List.getElem?_eq_getElem hjL
      have hgetD : backend.getD index.toNat default = backend[index.toNat] :=
        List.getD_eq_getElem?_getD backend index.toNat default ▸ by rw [hj]; rfl
      simp only [hgetD]
      have hle := hall index.toNat _ hj
      rw [if_neg (by omega)]
      rw [if_neg (by omega)]
      have hns := newStep_pos step
      rcases Nat.eq_zero_or_pos step with hz | hp1
      · subst hz
        apply ih
        · omega
        · have h1 : newStep 0 = 1 := rfl
          rw [h1]
          norm_num at hf ⊢
          omega
      · apply ih
        · omega
        · have hns2 : ¬ newStep step = 0 := by
            have := newStep_pos step
            omega
          simp only [if_neg hns2]
          simp only [show ¬ step = 0 by omega, if_neg, if_false] at hf
          omega
    · rw [if_neg hcond]

/-- C6: for a materialized token list whose spans are ordered and
non-overlapping (as the tokenizer produces them), `findTokenIndexAtPosition`
with the default `start = 0` returns the index `k` of the token whose span
contains the position, and returns `-1` for a position at or past the end
of every token. -/
theorem C6_findTokenIndexAtPosition (backend : List Tok)
    (hord : ∀ i, i < backend.length - 1 →
      (backend.getD i default).pos + (backend.getD i default).len ≤
        (backend.getD (i + 1) default).pos) :
    (∀ (k : Nat) (tk : Tok) (p : Int), backend[k]? = some tk →
      (tk.pos : Int) ≤ p → p < (tk.pos : Int) + tk.len →
      findTokenIndexAtPosition backend p 0 = some (k : Int)) ∧
    (∀ p : Int,
      (∀ i, i < backend.length → ((backend.getD i default).pos : Int) +
        (backend.getD i default).len ≤ p) →
      findTokenIndexAtPosition backend p 0 = some (-1)) := by
  have hord2 : ∀ i t u, backend[i]? = some t → backend[i + 1]? = some u →
      t.pos + t.len ≤ u.pos := by
    intro i t u ht hu
    have hiL : i + 1 < backend.length := (List.getElem?_eq_some.mp hu).1
    have h := hord i (by omega)
    have ht2 : backend.getD i default = t := by
      rw [List.getD_eq_getElem?_getD, ht]
      rfl
    have hu2 : backend.getD (i + 1) default = u := by
      rw [List.getD_eq_getElem?_getD, hu]
      rfl
    rw [ht2, hu2] at h
    exact h
  constructor
  · intro k tk p hk hlo hhi
    have hkL : k < backend.length := (List.getElem?_eq_some.mp hk).1
    unfold findTokenIndexAtPosition
    simp only [Nat.sub_zero]
    have hidx : (((0 : Nat) : Int) + (backend.length : Int) / 2) =
        ((backend.length / 2 : Nat) : Int) := by
      omega
    rw [hidx]
    apply ftiLoop_in_span backend p k tk hord2 hk hlo hhi
    · omega
    · omega
    · intro h2
      constructor <;> push_cast <;> omega
    · have h1 : (((backend.length / 2 : Nat) : Int) - k).natAbs ≤ backend.length := by
        omega
      split <;> omega
  · intro p hall
    have hall2 : ∀ (i : Nat) (t : Tok), backend[i]? = some t → (t.pos : Int) + t.len ≤ p := by
      intro i t ht
      have hiL : i < backend.length := (List.getElem?_eq_some.mp ht).1
      have h := hall i hiL
      have ht2 : backend.getD i default = t := by
        rw [List.getD_eq_getElem?_getD, ht]
        rfl
      rw [ht2] at h
      exact h
    unfold findTokenIndexAtPosition
    simp only [Nat.sub_zero]
    have hidx : (((0 : Nat) : Int) + (backend.length : Int) / 2) =
        ((backend.length / 2 : Nat) : Int) := by
      omega
    rw [hidx]
    apply ftiLoop_past_end backend p hall2
    · omega
    · split <;> omega

/-- C6, witness: the theorem applied to a concrete three-token list — a
position inside the third token's span yields index 2, and a position past
every token yields `-1`. -/
theorem C6_witness :
    findTokenIndexAtPosition c6Tokens 6 0 = some 2 ∧
    findTokenIndexAtPosition c6Tokens 100 0 = some (-1) :=
  ⟨(C6_findTokenIndexAtPosition c6Tokens (by decide)).1 2
      { kind := .punctuation, pos := 5, len := 3, text := "(" } 6 (by decide)
      (by decide) (by decide),
   (C6_findTokenIndexAtPosition c6Tokens (by decide)).2 100 (by decide)⟩

/-- C8, counterexample.  The binary-search `lookupLineNumberAndColumn` of
src/src/source.ts (one of the claim's two cited implementations) does not
fail for offsets past the end of the text: on `"ab\ncd"` (length 5) at
offset 100 it returns the ordinary pair `(2, 98)` — there is no
out-of-range check anywhere in its body. -/
theorem C8_counterexample :
    ("ab\ncd".toList).length = 5 ∧
    lookupLineNumberAndColumn "ab\ncd".toList 100 = some (2, some 98) := by
  decide

/-! ## C4 and the C8 amendment: convergence of the line lookup -/

theorem cumulLen_zero (lines : List (List Char)) : cumulLen lines 0 = 0 := by
  simp [cumulLen]

theorem cumulLen_le_succ (lines : List (List Char)) (i : Nat) :
    cumulLen lines i ≤ cumulLen lines (i + 1) := by
  unfold cumulLen
  rw [List.take_succ, List.map_append, List.sum_append]
  exact Nat.le_add_right _ _

theorem cumulLen_mono (lines : List (List Char)) {i j : Nat} (h : i ≤ j) :
    cumulLen lines i ≤ cumulLen lines j := by
  induction j with
  | zero => rw [show i = 0 from by omega]
  | succ j ih =>
    rcases Nat.lt_or_ge i (j + 1) with h1 | h1
    · exact le_trans (ih (by omega)) (cumulLen_le_succ lines j)
    · rw [show i = j + 1 from by omega]

theorem buildMap_length : ∀ (lines : List (List Char)) (cur : Nat),
    (buildMap lines cur).length = lines.length := by
  intro lines
  induction lines with
  | nil => intro cur; rfl
  | cons l ls ih => intro cur; simp [buildMap, ih]

theorem buildMap_getElem? : ∀ (lines : List (List Char)) (cur i : Nat),
    (buildMap lines cur)[i]? =
      if i < lines.length then some (cur + cumulLen lines i) else none := by
  intro lines
  induction lines with
  | nil => intro cur i; simp [buildMap]
  | cons l ls ih =>
    intro cur i
    cases i with
    | zero => simp [buildMap, cumulLen]
    | succ i =>
      rw [show buildMap (l :: ls) cur = cur :: buildMap ls (cur + l.length) from rfl]
      rw [List.getElem?_cons_succ]
      rw [ih (cur + l.length) i]
      have hc : cumulLen (l :: ls) (i + 1) = l.length + cumulLen ls i := by
        unfold cumulLen
        rw [List.take_succ_cons]
        simp
      by_cases hi : i < ls.length
      · rw [if_pos hi, if_pos (by simp only [List.length_cons]; omega)]
        rw [hc]
        exact congrArg some (by omega)
      · rw [if_neg hi, if_neg (by simp only [List.length_cons]; omega)]

theorem mapGet_natCast (map : List Nat) (j : Nat) (hj : j < map.length) :
    mapGet map (j : Int) = some ((map[j] : Nat) : Int) := by
  unfold mapGet
  rw [dif_pos (by omega : (0 : Int) ≤ (j : Int))]
  rw [show ((j : Int)).toNat = j from by omega]
  rw [List.getElem?_eq_getElem hj]
  rfl

theorem mapGet_none_of_ge (map : List Nat) (i : Int) (hi : (map.length : Int) ≤ i) :
    mapGet map i = none := by
  unfold mapGet
  by_cases h : (0 : Int) ≤ i
  · rw [dif_pos h]
    rw [List.getElem?_eq_none (by omega)]
    rfl
  · rw [dif_neg h]

/-- Transitivity of the adjacent order relation between line-table entries. -/
theorem mapVals_ordered (map : List Nat)
    (hmono : ∀ (i a b : Nat), map[i]? = some a → map[i + 1]? = some b → a ≤ b) :
    ∀ (d i : Nat) (a b : Nat), map[i]? = some a → map[i + d]? = some b → a ≤ b := by
  intro d
  induction d with
  | zero =>
    intro i a b ha hb
    rw [Nat.add_zero, ha] at hb
    exact le_of_eq (Option.some.inj hb)
  | succ d ih =>
    intro i a b ha hb
    have hul : i + (d + 1) < map.length := (List.getElem?_eq_some.mp hb).1
    have hi1 : i + 1 < map.length := by omega
    have hmid : map[i + 1]? = some map[i + 1] := List.getElem?_eq_getElem hi1
    have h1 := hmono i a _ ha hmid
    have h2 := ih (i + 1) _ b hmid (by
      rw [show i + 1 + d = i + (d + 1) by omega]
      exact hb)
    omega

/-- Convergence of the lookup's decaying-step search: from any state
satisfying the phase invariant, the loop returns line `K + 1` and column
`p - map[K] + 1`, where `K` is the last table entry with `map[K] ≤ p`. -/
theorem lookupLoop_conv (map : List Nat) (p : Int) (K vK : Nat)
    (hmono : ∀ (i a b : Nat), map[i]? = some a → map[i + 1]? = some b → a ≤ b)
    (hK : map[K]? = some vK) (hKle : (vK : Int) ≤ p)
    (hKmax : ∀ w : Nat, map[K + 1]? = some w → p < (w : Int)) :
    ∀ (fuel : Nat) (index : Int) (step : Nat),
      0 ≤ index → index < (map.length : Int) →
      (2 ≤ step → 2 * (step : Int) ≤ index ∧ index + 2 * (step : Int) ≤ map.length) →
      (index - K).natAbs + 4 * step + (if step = 0 then 6 else 0) + 2 ≤ fuel →
      lookupLoop map p fuel index step = some ((K : Int) + 1, some (p - (vK : Int) + 1)) := by
  have hKL : K < map.length := (List.getElem?_eq_some.mp hK).1
  have hvKK : map[K] = vK := by
    have h := List.getElem?_eq_getElem hKL
    rw [hK] at h
    exact (Option.some.inj h).symm
  intro fuel
  induction fuel with
  | zero => intro index step _ _ _ hf; omega
  | succ fuel ih =>
    intro index step h0 hL hCA hf
    have hjL : index.toNat < map.length := by omega
    have hj : map[index.toNat]? = some map[index.toNat] := List.getElem?_eq_getElem hjL
    have hmg : mapGet map index = some ((map[index.toNat] : Nat) : Int) := by
      unfold mapGet
      rw [dif_pos h0, hj]
      rfl
    unfold lookupLoop
    rw [if_pos hL]
    rcases Nat.lt_trichotomy index.toNat K with hlt | heq | hgt
    · -- left of K: both this entry and the next are ≤ vK ≤ p, so climb right
      have hle1 : map[index.toNat] ≤ vK :=
        mapVals_ordered map hmono (K - index.toNat) index.toNat _ vK hj
          (by rw [show index.toNat + (K - index.toNat) = K from by omega]; exact hK)
      have hg1 : ¬ gtOpt (mapGet map index) p = true := by
        rw [hmg]
        simp only [gtOpt, decide_eq_true_eq]
        omega
      rw [if_neg hg1]
      have hj1L : index.toNat + 1 < map.length := by omega
      have hj1 : map[index.toNat + 1]? = some map[index.toNat + 1] :=
        List.getElem?_eq_getElem hj1L
      have hmg1 : mapGet map (index + 1) = some ((map[index.toNat + 1] : Nat) : Int) := by
        unfold mapGet
        rw [dif_pos (by omega : (0 : Int) ≤ index + 1)]
        rw [show (index + 1).toNat = index.toNat + 1 from by omega]
        rw [hj1]
        rfl
      have hle2 : map[index.toNat + 1] ≤ vK :=
        mapVals_ordered map hmono (K - (index.toNat + 1)) (index.toNat + 1) _ vK hj1
          (by rw [show index.toNat + 1 + (K - (index.toNat + 1)) = K from by omega]; exact hK)
      have hg2 : ¬ gtOpt (mapGet map (index + 1)) p = true := by
        rw [hmg1]
        simp only [gtOpt, decide_eq_true_eq]
        omega
      rw [if_neg hg2]
      rcases Nat.lt_or_ge step 2 with hs2 | hs2
      · rcases (show step = 0 ∨ step = 1 from by omega) with h01 | h01
        · subst h01
          rw [newStep_of_lt (by omega)]
          apply ih
          · omega
          · omega
          · intro h; omega
          · norm_num at hf ⊢
            omega
        · subst h01
          rw [newStep_of_lt (by omega)]
          apply ih
          · omega
          · omega
          · intro h; omega
          · norm_num at hf ⊢
            omega
      · have hns := newStep_of_ge hs2
        obtain ⟨hca1, hca2⟩ := hCA hs2
        rw [hns]
        apply ih
        · omega
        · omega
        · intro h
          constructor <;> push_cast <;> omega
        · have hna : ((index + step) - K).natAbs ≤ (index - K).natAbs + step := by omega
          have hz1 : ¬ (step / 2 = 0) := by omega
          have hz2 : ¬ (step = 0) := by omega
          simp only [if_neg hz1, if_neg hz2] at hf ⊢
          omega
    · -- at K: first guard is false; the next entry (if any) exceeds p
      have hvi : map[index.toNat] = vK := by
        have hcongr : map[index.toNat]? = map[K]? := by rw [heq]
        have h2 : some map[index.toNat] = some vK := by rw [← hj, hcongr, hK]
        exact Option.some.inj h2
      have hg1 : ¬ gtOpt (mapGet map index) p = true := by
        rw [hmg, hvi]
        simp only [gtOpt, decide_eq_true_eq]
        omega
      rw [if_neg hg1]
      rcases Nat.lt_or_ge (K + 1) map.length with hK1L | hK1L
      · -- interior cut: the loop returns here
        have hj2 : map[K + 1]? = some map[K + 1] := List.getElem?_eq_getElem hK1L
        have hpw : p < (map[K + 1] : Int) := hKmax _ hj2
        have hmg2 : mapGet map (index + 1) = some ((map[K + 1] : Nat) : Int) := by
          unfold mapGet
          rw [dif_pos (by omega : (0 : Int) ≤ index + 1)]
          rw [show (index + 1).toNat = K + 1 from by omega]
          rw [hj2]
          rfl
        have hg2 : gtOpt (mapGet map (index + 1)) p = true := by
          rw [hmg2]
          simp only [gtOpt, decide_eq_true_eq]
          omega
        rw [if_pos hg2]
        rw [hmg, hvi]
        rw [show index = ((K : Nat) : Int) from by omega]
        rfl
      · -- K is the last line: the search steps past the table and exits
        have hmg2 : mapGet map (index + 1) = none :=
          mapGet_none_of_ge map (index + 1) (by omega)
        have hg2 : ¬ gtOpt (mapGet map (index + 1)) p = true := by
          rw [hmg2]
          simp [gtOpt]
        rw [if_neg hg2]
        rcases Nat.lt_or_ge step 2 with hs2 | hs2
        · rcases (show step = 0 ∨ step = 1 from by omega) with h01 | h01
          · subst h01
            rw [newStep_of_lt (by omega)]
            apply ih
            · omega
            · omega
            · intro h; omega
            · norm_num at hf ⊢
              omega
          · subst h01
            rw [newStep_of_lt (by omega)]
            norm_num at hf
            obtain ⟨f2, rfl⟩ : ∃ f2, fuel = f2 + 1 := ⟨fuel - 1, by omega⟩
            unfold lookupLoop
            rw [if_neg (show ¬ index + ((1 : Nat) : Int) < (map.length : Int) from by
              push_cast
              omega)]
            have hmk : mapGet map ((map.length : Int) - 1) = some ((vK : Nat) : Int) := by
              rw [show (map.length : Int) - 1 = ((K : Nat) : Int) from by omega]
              rw [mapGet_natCast map K hKL, hvKK]
            rw [hmk]
            rw [show index + ((1 : Nat) : Int) = (K : Int) + 1 from by push_cast; omega]
            rfl
        · exfalso
          obtain ⟨hca1, hca2⟩ := hCA hs2
          omega
    · -- right of K: this entry already exceeds p, so descend
      have hK1L : K + 1 < map.length := by omega
      have hj2 : map[K + 1]? = some map[K + 1] := List.getElem?_eq_getElem hK1L
      have hpw : p < (map[K + 1] : Int) := hKmax _ hj2
      have hle3 : map[K + 1] ≤ map[index.toNat] :=
        mapVals_ordered map hmono (index.toNat - (K + 1)) (K + 1) _ _ hj2
          (by rw [show K + 1 + (index.toNat - (K + 1)) = index.toNat from by omega]; exact hj)
      have hg1 : gtOpt (mapGet map index) p = true := by
        rw [hmg]
        simp only [gtOpt, decide_eq_true_eq]
        omega
      rw [if_pos hg1]
      rcases Nat.lt_or_ge step 2 with hs2 | hs2
      · rcases (show step = 0 ∨ step = 1 from by omega) with h01 | h01
        · subst h01
          rw [newStep_of_lt (by omega)]
          apply ih
          · omega
          · omega
          · intro h; omega
          · norm_num at hf ⊢
            omega
        · subst h01
          rw [newStep_of_lt (by omega)]
          apply ih
          · omega
          · omega
          · intro h; omega
          · norm_num at hf ⊢
            omega
      · have hns := newStep_of_ge hs2
        obtain ⟨hca1, hca2⟩ := hCA hs2
        rw [hns]
        apply ih
        · omega
        · omega
        · intro h
          constructor <;> push_cast <;> omega
        · have hna : ((index - step) - K).natAbs ≤ (index - K).natAbs + step := by omega
          have hz1 : ¬ (step / 2 = 0) := by omega
          have hz2 : ¬ (step = 0) := by omega
          simp only [if_neg hz1, if_neg hz2] at hf ⊢
          omega

/-- A non-empty text always matches at least one line plus the final empty
match, so the raw match list has length at least 2 (and at least 1 always). -/
theorem linesAuxF_len : ∀ (fuel : Nat) (s : List Char), s.length < fuel →
    1 ≤ (linesAuxF fuel s).length ∧ (s ≠ [] → 2 ≤ (linesAuxF fuel s).length) := by
  intro fuel
  induction fuel with
  | zero => intro s h; omega
  | succ F ih =>
    intro s hs
    cases s with
    | nil =>
      refine ⟨by simp [linesAuxF], fun h => absurd rfl h⟩
    | cons c cs =>
      simp only [List.length_cons] at hs
      have hrl : (lineRest (c :: cs)).length ≤ (c :: cs).length := by
        unfold lineRest
        exact List.Sublist.length_le (List.dropWhile_sublist _)
      simp only [List.length_cons] at hrl
      have h2 : 2 ≤ (linesAuxF (F + 1) (c :: cs)).length := by
        simp only [linesAuxF]
        split
        · rename_i t heq
          have hlt : t.length < F := by
            have h := congrArg List.length heq
            simp only [List.length_cons] at h
            omega
          have hrec := (ih t hlt).1
          simp only [List.length_cons]
          omega
        · rename_i t heq
          have hlt : t.length < F := by
            have h := congrArg List.length heq
            simp only [List.length_cons] at h
            omega
          have hrec := (ih t hlt).1
          simp only [List.length_cons]
          omega
        · rename_i t hneg heq
          have hlt : t.length < F := by
            have h := congrArg List.length heq
            simp only [List.length_cons] at h
            omega
          have hrec := (ih t hlt).1
          split
          · simp only [List.length_cons]
            omega
          · simp only [List.length_cons]
            omega
        · simp only [List.length_cons, List.length_nil]
          omega
      exact ⟨by omega, fun _ => h2⟩

theorem linesOf_length_pos (text : List Char) (hne : text ≠ []) :
    1 ≤ (linesOf text).length := by
  unfold linesOf
  rw [List.length_dropLast]
  have h := (linesAuxF_len (text.length + 1) text (by omega)).2 hne
  omega

/-- The last 0-based line index whose starting offset is at most `o`. -/
theorem findGreatest_cut (lines : List (List Char)) (o : Nat) (hL : 1 ≤ lines.length) :
    ∃ K : Nat, K < lines.length ∧ cumulLen lines K ≤ o ∧
      (K + 1 < lines.length → o < cumulLen lines (K + 1)) := by
  refine ⟨Nat.findGreatest (fun i => cumulLen lines i ≤ o) (lines.length - 1), ?_, ?_, ?_⟩
  · have h := Nat.findGreatest_le (P := fun i => cumulLen lines i ≤ o) (lines.length - 1)
    omega
  · exact Nat.findGreatest_spec (P := fun i => cumulLen lines i ≤ o) (Nat.zero_le _)
      (by show cumulLen lines 0 ≤ o; rw [cumulLen_zero]; exact Nat.zero_le o)
  · intro h1
    have hng : ¬ (cumulLen lines
        (Nat.findGreatest (fun i => cumulLen lines i ≤ o) (lines.length - 1) + 1) ≤ o) :=
      Nat.findGreatest_is_greatest (P := fun i => cumulLen lines i ≤ o)
        (Nat.lt_succ_self _) (by omega)
    omega

/-- Closed-form evaluation of the binary-search lookup on a non-empty text
at a non-negative offset `o`: there is a cut line `K` (0-based) whose start
is at most `o` and whose successor (if any) starts past `o`, and the search
returns line `K + 1` and column `o - lineStart K + 1`. -/
theorem lookup_eval (text : List Char) (o : Nat) (hne : text ≠ []) :
    ∃ K : Nat, K < (linesOf text).length ∧ cumulLen (linesOf text) K ≤ o ∧
      (K + 1 < (linesOf text).length → o < cumulLen (linesOf text) (K + 1)) ∧
      lookupLineNumberAndColumn text (o : Int) =
        some ((K : Int) + 1, some ((o : Int) - (cumulLen (linesOf text) K : Int) + 1)) := by
  have hL1 : 1 ≤ (linesOf text).length := linesOf_length_pos text hne
  obtain ⟨K, hKL, hKle, hKmax⟩ := findGreatest_cut (linesOf text) o hL1
  refine ⟨K, hKL, hKle, hKmax, ?_⟩
  have hmapL : (mapOf text).length = (linesOf text).length := by
    unfold mapOf
    exact buildMap_length _ _
  have hget : ∀ i : Nat, (mapOf text)[i]? =
      if i < (linesOf text).length then some (cumulLen (linesOf text) i) else none := by
    intro i
    unfold mapOf
    rw [buildMap_getElem?]
    simp
  have hmono : ∀ (i a b : Nat), (mapOf text)[i]? = some a →
      (mapOf text)[i + 1]? = some b → a ≤ b := by
    intro i a b ha hb
    rw [hget i] at ha
    rw [hget (i + 1)] at hb
    by_cases hi : i < (linesOf text).length
    · by_cases hi1 : i + 1 < (linesOf text).length
      · rw [if_pos hi] at ha
        rw [if_pos hi1] at hb
        have h1 := cumulLen_le_succ (linesOf text) i
        have h2 := Option.some.inj ha
        have h3 := Option.some.inj hb
        omega
      · rw [if_neg hi1] at hb
        exact absurd hb (by simp)
    · rw [if_neg hi] at ha
      exact absurd ha (by simp)
  have hK : (mapOf text)[K]? = some (cumulLen (linesOf text) K) := by
    rw [hget K, if_pos hKL]
  have hKmax2 : ∀ w : Nat, (mapOf text)[K + 1]? = some w → (o : Int) < (w : Int) := by
    intro w hw
    rw [hget (K + 1)] at hw
    by_cases h1 : K + 1 < (linesOf text).length
    · rw [if_pos h1] at hw
      have h2 := Option.some.inj hw
      have h3 := hKmax h1
      omega
    · rw [if_neg h1] at hw
      exact absurd hw (by simp)
  show lookupLoop (mapOf text) (o : Int) (4 * (mapOf text).length + 16)
      (((mapOf text).length : Int) / 2) ((mapOf text).length / 4) = _
  rw [show ((mapOf text).length : Int) / 2 = (((mapOf text).length / 2 : Nat) : Int) from by
    omega]
  apply lookupLoop_conv (mapOf text) (o : Int) K (cumulLen (linesOf text) K) hmono hK
    (by omega) hKmax2
  · omega
  · omega
  · intro h
    constructor <;> omega
  · split <;> omega

/-- C4: for every non-empty text and every offset `0 ≤ o ≤ len(text)`,
`lookupLineNumberAndColumn(o)` returns a pair `(line, column)` with
`1 ≤ line ≤` the number of lines, and the cumulative length of the first
`line - 1` lines plus `column - 1` equals `o` (the round trip through the
line table reconstructs the offset). -/
theorem C4_lookup_roundtrip (text : List Char) (o : Nat) (hne : text ≠ [])
    (hle : o ≤ text.length) :
    ∃ (line : Nat) (col : Int),
      lookupLineNumberAndColumn text (o : Int) = some ((line : Int), some col) ∧
      1 ≤ line ∧ line ≤ (linesOf text).length ∧
      ((cumulLen (linesOf text) (line - 1) : Nat) : Int) + (col - 1) = (o : Int) := by
  obtain ⟨K, hKL, hKle2, hKmax, heval⟩ := lookup_eval text o hne
  refine ⟨K + 1, (o : Int) - (cumulLen (linesOf text) K : Int) + 1, ?_, ?_, ?_, ?_⟩
  · rw [heval, show ((K + 1 : Nat) : Int) = (K : Int) + 1 from by push_cast; ring]
  · omega
  · omega
  · simp only [Nat.add_sub_cancel]
    omega

/-- C4, witness: the round-trip theorem applied to `"ab\ncd"` at offset 4
(inside the second line). -/
theorem C4_witness :
    ∃ (line : Nat) (col : Int),
      lookupLineNumberAndColumn "ab\ncd".toList ((4 : Nat) : Int) =
        some ((line : Int), some col) ∧
      1 ≤ line ∧ line ≤ (linesOf "ab\ncd".toList).length ∧
      ((cumulLen (linesOf "ab\ncd".toList) (line - 1) : Nat) : Int) + (col - 1) =
        ((4 : Nat) : Int) :=
  C4_lookup_roundtrip "ab\ncd".toList 4 (by decide) (by decide)

/-- C8 (amended): only the legacy lookup of part_000 has the claimed edge
behaviour — it returns `(1, 1)` at offset 0, the sentinel `(0, 0)` for
every negative offset, and fails out-of-range for every offset greater
than the text length.  The binary-search lookup of src/src/source.ts has
none of these checks: at offset 0 it yields `(1, 1)` only because the
general search formula lands there (whenever the first line is non-empty),
and every non-negative offset — however far past the end of the text —
produces an ordinary `(line, column)` answer instead of a failure. -/
theorem C8_lookup_edge_amended :
    (∀ text : List Char, lookupOld text 0 = .ok 1 1) ∧
    (∀ (text : List Char) (q : Int), q < 0 → lookupOld text q = .ok 0 0) ∧
    (∀ (text : List Char) (q : Int), (text.length : Int) < q →
      lookupOld text q = .outOfRange) ∧
    (∀ text : List Char, text ≠ [] → 1 ≤ ((linesOf text).headD []).length →
      lookupLineNumberAndColumn text 0 = some (1, some 1)) ∧
    (∀ (text : List Char) (o : Nat), text ≠ [] →
      ∃ (line : Nat) (col : Int),
        lookupLineNumberAndColumn text (o : Int) = some ((line : Int), some col)) := by
  refine ⟨?_, ?_, ?_, ?_, ?_⟩
  · intro text
    unfold lookupOld
    rw [if_pos rfl]
  · intro text q hq
    unfold lookupOld
    rw [if_neg (by omega), if_pos hq]
  · intro text q hq
    unfold lookupOld
    rw [if_neg (by omega), if_neg (by omega), if_pos hq]
  · intro text hne hhead
    obtain ⟨K, hKL, hKle, hKmax, heval⟩ := lookup_eval text 0 hne
    have hK0 : K = 0 := by
      by_contra hK0
      have h1 : 1 ≤ K := by omega
      have h2 : cumulLen (linesOf text) 1 ≤ cumulLen (linesOf text) K :=
        cumulLen_mono _ h1
      have h3 : 1 ≤ cumulLen (linesOf text) 1 := by
        cases hl : linesOf text with
        | nil =>
          rw [hl] at hKL
          simp at hKL
        | cons l ls =>
          have e1 : cumulLen (l :: ls) 1 = l.length := by simp [cumulLen]
          rw [hl] at hhead
          rw [show (l :: ls).headD [] = l from rfl] at hhead
          rw [e1]
          exact hhead
      omega
    subst hK0
    rw [cumulLen_zero] at heval
    simpa using heval
  · intro text o hne
    obtain ⟨K, hKL, hKle, hKmax, heval⟩ := lookup_eval text o hne
    exact ⟨K + 1, (o : Int) - (cumulLen (linesOf text) K : Int) + 1,
      by rw [heval, show ((K + 1 : Nat) : Int) = (K : Int) + 1 from by push_cast; ring]⟩

/-- C8, witness: the amended theorem applied at concrete inputs — the
legacy lookup on `"ab\ncd"` at offsets 0, −5 and 100, and the
binary-search lookup on the same text at offsets 0 and 3. -/
theorem C8_witness :
    lookupOld "ab\ncd".toList 0 = .ok 1 1 ∧
    lookupOld "ab\ncd".toList (-5) = .ok 0 0 ∧
    lookupOld "ab\ncd".toList 100 = .outOfRange ∧
    lookupLineNumberAndColumn "ab\ncd".toList 0 = some (1, some 1) ∧
    ∃ (line : Nat) (col : Int),
      lookupLineNumberAndColumn "ab\ncd".toList ((3 : Nat) : Int) =
        some ((line : Int), some col) :=
  ⟨C8_lookup_edge_amended.1 "ab\ncd".toList,
   C8_lookup_edge_amended.2.1 "ab\ncd".toList (-5) (by decide),
   C8_lookup_edge_amended.2.2.1 "ab\ncd".toList 100 (by decide),
   C8_lookup_edge_amended.2.2.2.1 "ab\ncd".toList (by decide) (by decide),
   C8_lookup_edge_amended.2.2.2.2 "ab\ncd".toList 3 (by decide)⟩

end Ema
